import Mathlib

/-!
Verification of the packet-to-frame pipeline of a spinning-LiDAR decoding
library (Velodyne and Ouster families).

The development shallowly embeds:

* the Velodyne frame assembler `points_to_frames` and its per-call wrapper
  `convert_single_return` (src/velodyne/frame_converter/impls.rs),
* the Velodyne external calibration-table validation `ParamsConfig::from_str`
  (src/velodyne/config.rs; the YAML parsing itself is an external collaborator,
  only the post-parse validation is embedded),
* the Ouster packet layout accessors `Pixel::distance_millimeter` and
  `Packet::from_slice` (src/ouster/packet.rs).

Machine integers are embedded as `Nat` (overflow never occurs on the paths
embedded here: laser ids, counters and lengths are small).  The azimuth of a
point is an abstract rotational value; the assembler only ever compares
azimuths with `<`, so it is embedded as a `Nat`.  Rust `assert!` failures and
the division by zero that `remaining_points.len() / beam_num` would perform
with `beam_num == 0` are embedded as `Except.error` outcomes, so that the
theorems can speak about them.
-/

/-- A point as seen by the Velodyne frame assembler.  The assembler reads the
original (uncorrected) azimuth angle, the laser id and the row index, and
writes the column index; `stamp` stands for all remaining payload of a point
(position, intensity, timestamp), which the assembler moves around
unmodified. -/
structure Pt where
  azimuth : Nat
  laser_id : Nat
  row_idx : Nat
  col_idx : Nat
  stamp : Nat
  deriving DecidableEq, Repr

/-- Forget the column index of a point (the only field the assembler
modifies). -/
def eraseColIdx (p : Pt) : Pt :=
  { p with col_idx := 0 }

/-- The emitted frame: point buffer plus grid height and width
(`PcdFrame` in the source). -/
structure PcdFrame where
  data : List Pt
  height : Nat
  width : Nat
  deriving DecidableEq, Repr

/-- Abnormal outcomes of the frame assembler.  The two assert variants embed
the `assert!` statements guarding a completed column, the third embeds the
division by zero that the chunked sort would perform if `beam_num` were `0`
at emission time. -/
inductive FrameAssemblyError where
  | laserIdAssert
  | channelLenAssert
  | divisionByZero
  deriving DecidableEq, Repr

/-- Comparison used to sort a completed column: by row index. -/
def rowLe (a b : Pt) : Prop := a.row_idx ≤ b.row_idx

instance : DecidableRel rowLe := fun a b => Nat.decLe a.row_idx b.row_idx

instance : IsTotal Pt rowLe := ⟨fun a b => Nat.le_total a.row_idx b.row_idx⟩

instance : IsTrans Pt rowLe := ⟨fun _ _ _ h1 h2 => Nat.le_trans h1 h2⟩

/-- Stable sort of one column by row index (`sort_by` on a slice in the
source; Rust's `sort_by` is a stable sort). -/
def sortCol (l : List Pt) : List Pt := List.insertionSort rowLe l

/-- Sort the first `n` chunks of `B` consecutive points each, leaving the
rest of the list untouched. -/
def sortChunksGo (B : Nat) : Nat → List Pt → List Pt
  | 0, l => l
  | n + 1, l => sortCol (l.take B) ++ sortChunksGo B n (l.drop B)

/-- `sortChunks B l` sorts each complete chunk of `B` consecutive points of
`l` by row index, leaving the final partial chunk (if any) untouched.  This
is the loop `for i in 0..(remaining_points.len() / beam_num)` of the source,
which sorts exactly the `len / B` complete chunks. -/
def sortChunks (B : Nat) (l : List Pt) : List Pt :=
  sortChunksGo B (l.length / B) l

/-- The mutable state of the assembler loop in `points_to_frames`: the local
variables `frames`, `remaining_points`, `prev_azimuth`, `remaining_channel`,
`prev_laser_id`, `col_idx_cnt` and `beam_num`. -/
structure AsmState where
  frames : Option PcdFrame
  remaining_points : List Pt
  prev_azimuth : Option Nat
  remaining_channel : List Pt
  prev_laser_id : Nat
  col_idx_cnt : Nat
  beam_num : Nat
  deriving DecidableEq, Repr

/-- Initial values of the loop state (`prev_laser_id` starts at
`u32::MIN = 0`). -/
def initState : AsmState :=
  ⟨none, [], none, [], 0, 0, 0⟩

/-- The frame-emission branch of the loop body: runs when azimuth passed zero
and `remaining_points` is non-empty.  Sorts each complete `beam_num`-chunk of
`remaining_points`, moves the buffer into a new frame with
`height = beam_num` and `width = col_idx_cnt`, and resets the column counter.
With `beam_num = 0` the source would divide by zero
(`remaining_points.len() / beam_num`), embedded as an error. -/
def emitFrame (s : AsmState) : Except FrameAssemblyError AsmState :=
  if s.beam_num = 0 then .error .divisionByZero
  else .ok { s with
    frames := some ⟨sortChunks s.beam_num s.remaining_points, s.beam_num, s.col_idx_cnt⟩,
    remaining_points := [],
    col_idx_cnt := 0 }

/-- The column-flush branch of the loop body: runs when the laser id dropped.
Asserts `prev_laser_id ∈ {15, 31}` and `remaining_channel.len() ∈ {16, 32}`
(in this order, as in the source), derives `beam_num`, appends the completed
column to `remaining_points` and advances the column counter. -/
def flushColumn (s : AsmState) : Except FrameAssemblyError AsmState :=
  if s.prev_laser_id = 15 ∨ s.prev_laser_id = 31 then
    if s.remaining_channel.length = 16 ∨ s.remaining_channel.length = 32 then
      .ok { s with
        beam_num := s.prev_laser_id + 1,
        remaining_points := s.remaining_points ++ s.remaining_channel,
        remaining_channel := [],
        col_idx_cnt := s.col_idx_cnt + 1 }
    else .error .channelLenAssert
  else .error .laserIdAssert

/-- Tail of the loop body: assign the running column index to the point,
append it to the in-progress column and record its laser id and azimuth as
"previous". -/
def pushPoint (s : AsmState) (p : Pt) : AsmState :=
  { s with
    remaining_channel := s.remaining_channel ++ [{ p with col_idx := s.col_idx_cnt }],
    prev_laser_id := p.laser_id,
    prev_azimuth := some p.azimuth }

/-- `pass_zero_azimuth`: the current azimuth is strictly less than the
previous one (`prev_azimuth.map_or(false, |prev| curr_azimuth < prev)`). -/
def passZeroB (prev_azimuth : Option Nat) (az : Nat) : Bool :=
  match prev_azimuth with
  | none => false
  | some prev => decide (az < prev)

/-- One iteration of the `for_each` loop of `points_to_frames`, in source
order: decide `pass_zero_azimuth` against the previous azimuth, possibly emit
a frame, possibly flush the completed column, then push the current point. -/
def step (s : AsmState) (p : Pt) : Except FrameAssemblyError AsmState :=
  Except.bind
    (if passZeroB s.prev_azimuth p.azimuth = true ∧ 0 < s.remaining_points.length
     then emitFrame s else .ok s)
    fun s1 =>
      Except.bind
        (if p.laser_id < s1.prev_laser_id then flushColumn s1 else .ok s1)
        fun s2 => .ok (pushPoint s2 p)

/-- Run the assembler loop over a list of points from a given state.  A Rust
`assert!` failure (or the division by zero) aborts the iteration, embedded by
propagating the error. -/
def runPoints (s : AsmState) : List Pt → Except FrameAssemblyError AsmState
  | [] => .ok s
  | p :: rest =>
    match step s p with
    | .error e => .error e
    | .ok s1 => runPoints s1 rest

/-- `points_to_frames`: run the loop from the initial state over the whole
input and return the (at most one) emitted frame together with the leftover
points `remaining_points ++ remaining_channel`. -/
def points_to_frames (pts : List Pt) : Except FrameAssemblyError (Option PcdFrame × List Pt) :=
  match runPoints initState pts with
  | .error e => .error e
  | .ok s => .ok (s.frames, s.remaining_points ++ s.remaining_channel)

/-- `convert_single_return`: one conversion call.  It drains the carried-over
points, chains the points converted from the current packet behind them and
hands everything to `points_to_frames`; the returned pair is the optional
frame and the new carried-over buffer.  (The point-cloud conversion itself is
outside the assembler; its output is the `new_points` argument.) -/
def convert_single_return (remaining_points new_points : List Pt) :
    Except FrameAssemblyError (Option PcdFrame × List Pt) :=
  points_to_frames (remaining_points ++ new_points)

/-- The frame component of an assembler result. -/
def framePart (r : Except FrameAssemblyError (Option PcdFrame × List Pt)) :
    Except FrameAssemblyError (Option PcdFrame) :=
  match r with
  | .error e => .error e
  | .ok (o, _) => .ok o

/-- Point count of the emitted frame of a result, if any. -/
def emittedLen (r : Except FrameAssemblyError (Option PcdFrame × List Pt)) : Option Nat :=
  match r with
  | .ok (some F, _) => some F.data.length
  | _ => none

/-- Height of the emitted frame of a result, if any. -/
def emittedHeight (r : Except FrameAssemblyError (Option PcdFrame × List Pt)) : Option Nat :=
  match r with
  | .ok (some F, _) => some F.height
  | _ => none

/-- Width of the emitted frame of a result, if any. -/
def emittedWidth (r : Except FrameAssemblyError (Option PcdFrame × List Pt)) : Option Nat :=
  match r with
  | .ok (some F, _) => some F.width
  | _ => none

/-- The data of an optional frame. -/
def frameData : Option PcdFrame → List Pt
  | none => []
  | some F => F.data

/-- Number of adjacent azimuth drops in a point sequence, counting from a
given previous azimuth. -/
def dropCountFrom : Option Nat → List Pt → Nat
  | _, [] => 0
  | none, p :: rest => dropCountFrom (some p.azimuth) rest
  | some a, p :: rest => (if p.azimuth < a then 1 else 0) + dropCountFrom (some p.azimuth) rest

/-- Number of points whose azimuth is strictly less than their predecessor's
(the revolution-boundary signal of the assembler). -/
def dropCount (pts : List Pt) : Nat := dropCountFrom none pts

/-- Check that adjacent azimuths strictly increase. -/
def strictIncAz : List Pt → Bool
  | [] => true
  | [_] => true
  | a :: b :: rest => (decide (a.azimuth < b.azimuth)) && strictIncAz (b :: rest)

/-- Check that the laser ids of a point sequence count cyclically
`0, 1, ..., B-1, 0, 1, ...` (every column well-formed). -/
def lasersCyclic (B : Nat) (pts : List Pt) : Bool :=
  pts.enum.all fun ip => ip.2.laser_id == ip.1 % B

/-- Is some stamp present in a point list? -/
def stampIn (st : Nat) (l : List Pt) : Bool :=
  l.any fun p => p.stamp == st

/-- Does the result of a call (frame or leftover) contain a point with the
given stamp? -/
def resultHasStamp (st : Nat) (r : Except FrameAssemblyError (Option PcdFrame × List Pt)) : Bool :=
  match r with
  | .error _ => false
  | .ok (o, l) => stampIn st (frameData o) || stampIn st l

/-- Adjacent row indices non-decreasing. -/
def nondecRow : List Pt → Bool
  | [] => true
  | [_] => true
  | a :: b :: rest => (decide (a.row_idx ≤ b.row_idx)) && nondecRow (b :: rest)

/-- Check row order on the first `n` chunks of `B` points each. -/
def nondecChunksGo (B : Nat) : Nat → List Pt → Bool
  | 0, _ => true
  | n + 1, l => nondecRow (l.take B) && nondecChunksGo B n (l.drop B)

/-- Check that every complete chunk of `B` consecutive points is
non-decreasing in row index (the final partial chunk is not constrained). -/
def nondecChunks (B : Nat) (l : List Pt) : Bool :=
  nondecChunksGo B (l.length / B) l

/-- Laser ids never decrease along the list, starting from a given previous
laser id (so the assembler never detects a column boundary inside it). -/
def lchainFrom (pl : Nat) : List Pt → Bool
  | [] => true
  | p :: rest => (decide (pl ≤ p.laser_id)) && lchainFrom p.laser_id rest

/-- The laser id of the last point (0 for an empty list). -/
def lastLaserD (q : List Pt) : Nat :=
  match q.getLast? with
  | some p => p.laser_id
  | none => 0

/-- Did a call abort with one of the structural column asserts? -/
def isStructuralError (r : Except FrameAssemblyError (Option PcdFrame × List Pt)) : Bool :=
  match r with
  | .error .laserIdAssert => true
  | .error .channelLenAssert => true
  | _ => false

/-- Is the run free of the division-by-zero outcome? -/
def divisionSafe (r : Except FrameAssemblyError AsmState) : Bool :=
  match r with
  | .error .divisionByZero => false
  | _ => true

/-- After a successful run, a non-empty revolution buffer implies the
detected beam count is 16 or 32. -/
def beamOk (r : Except FrameAssemblyError AsmState) : Bool :=
  match r with
  | .error _ => true
  | .ok s => s.remaining_points.isEmpty || (s.beam_num == 16 || s.beam_num == 32)

/-! ## Ouster packet layout (src/ouster/packet.rs)

The constants `PIXELS_PER_COLUMN` and `COLUMNS_PER_PACKET` live in
`src/ouster/consts.rs`, which is not part of the shown sources; their values
(64 pixels per column, 16 columns per packet) are modelled from the spec's
description of the fixed, compile-time-known packet layout.  Bytes are
embedded as `Nat` values below 256; multi-byte fields are little-endian, as
on the source's target platforms (the structs are `#[repr(C, packed)]` views
over the raw buffer). -/

/-- Modelled from the spec: number of pixel records in one column record
(`PIXELS_PER_COLUMN` of the absent `src/ouster/consts.rs`). -/
def PIXELS_PER_COLUMN : Nat := 64

/-- Modelled from the spec: number of column records in one packet
(`COLUMNS_PER_PACKET` of the absent `src/ouster/consts.rs`). -/
def COLUMNS_PER_PACKET : Nat := 16

/-- Byte size of one pixel record: 4 + 2 + 2 + 2 + 2. -/
def PIXEL_SIZE : Nat := 12

/-- Byte size of one column record: 8 + 2 + 2 + 4 + 64 * 12 + 4. -/
def COLUMN_SIZE : Nat := 16 + PIXELS_PER_COLUMN * PIXEL_SIZE + 4

/-- Byte size of one packet (`size_of::<Packet>()`). -/
def PACKET_SIZE : Nat := COLUMNS_PER_PACKET * COLUMN_SIZE

/-- One point of signal measurement (`Pixel`).  The least significant 20 bits
of `raw_distance` form the distance in millimeters. -/
structure Pixel where
  raw_distance : Nat
  reflectivity : Nat
  signal_photons : Nat
  noise_photons : Nat
  pad : Nat
  deriving DecidableEq, Repr

/-- `Pixel::distance_millimeter`: mask the raw distance word to its low
20 bits (`self.raw_distance & 0x000fffff`). -/
def Pixel.distance_millimeter (p : Pixel) : Nat :=
  Nat.land p.raw_distance 0xfffff

/-- A column record (`Column`): timestamp, measurement id, frame id, encoder
ticks, pixel array, validity marker. -/
structure Column where
  timestamp : Nat
  measurement_id : Nat
  frame_id : Nat
  encoder_ticks : Nat
  pixels : List Pixel
  raw_valid : Nat
  deriving DecidableEq, Repr

/-- `Column::valid`: the column is marked valid iff the marker equals the
sentinel `0xffffffff`. -/
def Column.valid (c : Column) : Bool :=
  c.raw_valid == 0xffffffff

/-- A data packet (`Packet`): a fixed count of column records. -/
structure Packet where
  columns : List Column
  deriving DecidableEq, Repr

/-- Read a little-endian unsigned integer of `len` bytes at offset `off`. -/
def readLE (buf : List Nat) (off len : Nat) : Nat :=
  ((buf.drop off).take len).foldr (fun b acc => b + 256 * acc) 0

/-- Decode one pixel record at byte offset `off`. -/
def decodePixel (buf : List Nat) (off : Nat) : Pixel :=
  ⟨readLE buf off 4, readLE buf (off + 4) 2, readLE buf (off + 6) 2,
    readLE buf (off + 8) 2, readLE buf (off + 10) 2⟩

/-- Decode one column record at byte offset `off`. -/
def decodeColumn (buf : List Nat) (off : Nat) : Column :=
  { timestamp := readLE buf off 8
    measurement_id := readLE buf (off + 8) 2
    frame_id := readLE buf (off + 10) 2
    encoder_ticks := readLE buf (off + 12) 4
    pixels := (List.range PIXELS_PER_COLUMN).map fun j =>
      decodePixel buf (off + 16 + PIXEL_SIZE * j)
    raw_valid := readLE buf (off + 16 + PIXELS_PER_COLUMN * PIXEL_SIZE) 4 }

/-- Decode a whole packet from a buffer of exactly `PACKET_SIZE` bytes. -/
def decodePacket (buf : List Nat) : Packet :=
  ⟨(List.range COLUMNS_PER_PACKET).map fun i => decodeColumn buf (COLUMN_SIZE * i)⟩

/-- The error payload of a failed `Packet::from_slice`: the message reports
the expected and the received length ("Requre the slice length to be {}, but
get {}"). -/
structure MalformedPacket where
  expected : Nat
  actual : Nat
  deriving DecidableEq, Repr

/-- `Packet::from_slice`: succeed (with the typed view over the buffer) iff
the slice length equals `size_of::<Packet>()`; otherwise fail with the
expected and actual lengths, decoding nothing. -/
def Packet.from_slice (buffer : List Nat) : Except MalformedPacket Packet :=
  if buffer.length = PACKET_SIZE then .ok (decodePacket buffer)
  else .error ⟨PACKET_SIZE, buffer.length⟩

/-! ## Velodyne external calibration table (src/velodyne/config.rs)

`ParamsConfig::from_str` first hands the text to the external YAML parser and
then validates the parsed record.  Only the validation is embedded: the
function below receives the already-parsed record, exactly the state of
`config` after `serde_yaml::from_str` succeeds.  The `f64` fields are
embedded as rationals (the validation only compares `distance_resolution`
with zero). -/

/-- One laser's entry of an external calibration table (`LaserConfig`). -/
structure LaserConfig where
  dist_correction : ℚ
  dist_correction_x : ℚ
  dist_correction_y : ℚ
  focal_distance : ℚ
  focal_slope : ℚ
  horiz_offset_correction : Option ℚ
  laser_id : Nat
  rot_correction : ℚ
  vert_correction : ℚ
  vert_offset_correction : ℚ
  deriving DecidableEq, Repr

/-- An external calibration table (`ParamsConfig`). -/
structure ParamsConfig where
  lasers : List LaserConfig
  num_lasers : Nat
  distance_resolution : ℚ
  deriving DecidableEq, Repr

/-- The three structural invariants checked by `ParamsConfig::from_str`,
named after the `ensure!` messages. -/
inductive CalibrationError where
  | nonPositiveResolution
  | numLasersMismatch
  | nonConsecutiveLaserId
  deriving DecidableEq, Repr

/-- The laser ids are exactly the consecutive sequence from the table's
origin 0 (`enumerate().all(|(idx, params)| idx == params.laser_id)`). -/
def consecutiveFromZero (lasers : List LaserConfig) : Bool :=
  lasers.enum.all fun ip => ip.1 == ip.2.laser_id

/-- The validation performed by `ParamsConfig::from_str` on the parsed
record, in source order: positive distance resolution, declared laser count
equal to the table length, consecutive laser ids; any violation rejects the
table in full. -/
def ParamsConfig.from_str (config : ParamsConfig) : Except CalibrationError ParamsConfig :=
  if 0 < config.distance_resolution then
    if config.num_lasers = config.lasers.length then
      if consecutiveFromZero config.lasers then .ok config
      else .error .nonConsecutiveLaserId
    else .error .numLasersMismatch
  else .error .nonPositiveResolution

/-- A laser entry with the given id and zero correction fields. -/
def mkLaser (i : Nat) : LaserConfig :=
  ⟨0, 0, 0, 0, 0, none, i, 0, 0, 0⟩

/-- A well-formed table of `n` consecutive lasers. -/
def mkTable (n : Nat) : ParamsConfig :=
  ⟨(List.range n).map mkLaser, n, 1⟩

/-- Extending a state by pushing a list of points one after the other,
without any emission or flush. -/
def quietExtend (s : AsmState) : List Pt → AsmState
  | [] => s
  | p :: rest => quietExtend (pushPoint s p) rest

/-- The input of the C5 witness: ten points of a column that announces 16
channels but stops at laser id 9. -/
def shortColumn : List Pt :=
  (List.range 10).map fun i => ⟨i, i, i, 0, i⟩

/-! ## C10: the chunked sort never divides by zero -/

/-- A non-empty revolution buffer implies a detected 16- or 32-beam count. -/
def goodBeam (s : AsmState) : Prop :=
  s.remaining_points ≠ [] → s.beam_num = 16 ∨ s.beam_num = 32

/-- Zero-resolution table of the C6 witness. -/
def tblRes0 : ParamsConfig := ⟨(List.range 16).map mkLaser, 16, 0⟩

/-- Table declaring 16 lasers but holding 15 entries. -/
def tblShort : ParamsConfig := ⟨(List.range 15).map mkLaser, 16, 1⟩

/-- Table with ids `[0, 1, ..., 14, 14]` (duplicate, non-consecutive). -/
def tblDup : ParamsConfig := ⟨(List.range 15).map mkLaser ++ [mkLaser 14], 16, 1⟩

/-! ## Concrete counterexample inputs -/

/-- Azimuth sequence that strictly increases for 32 points and then drops
once (the wraparound scenario of the spec). -/
def azWrapOnce (i : Nat) : Nat := if i < 32 then 100 + i else i - 32

/-- Three well-formed 16-beam columns whose per-point azimuths strictly
increase through the first two columns and drop at the first point of the
third. -/
def cexWrap : List Pt :=
  (List.range 48).map fun i => ⟨azWrapOnce i, i % 16, i % 16, 0, i⟩

/-- A column of `B` points with laser ids `0..B-1` and strictly increasing
azimuths starting at `azStart`. -/
def mkcol (B azStart stampStart : Nat) : List Pt :=
  (List.range B).map fun i => ⟨azStart + i, i, i, 0, stampStart + i⟩

/-- A 16-beam column, a 32-beam column and another 16-beam column (each
individually well-formed, so every assert passes), then an azimuth drop. -/
def cexMixed : List Pt :=
  mkcol 16 0 0 ++ mkcol 32 100 16 ++ mkcol 16 200 48 ++ [⟨50, 0, 0, 0, 64⟩]

/-- Azimuths of a stream in which two revolutions complete within a single
call: drops at indices 32 and 64, strictly increasing in between. -/
def azTwoRevs (i : Nat) : Nat :=
  if i < 16 then i else if i < 32 then 100 + i else if i < 64 then i - 16 else i - 64

/-- Five 16-beam columns of the first revolution (2 columns), the second
revolution (2 columns) and the start of a third. -/
def cexTwoRevs : List Pt :=
  (List.range 80).map fun i => ⟨azTwoRevs i, i % 16, i % 16, 0, i⟩

/-- The multiset of points held by a state (emitted frame, revolution buffer
and channel buffer), with the column index forgotten. -/
def stateBag (s : AsmState) : List Pt :=
  (frameData s.frames ++ s.remaining_points ++ s.remaining_channel).map eraseColIdx

/-- The input ahead contains at most one azimuth drop, and none at all if a
frame is already pending. -/
def atMostOneDrop (s : AsmState) (pts : List Pt) : Prop :=
  (s.frames = none ∧ dropCountFrom s.prev_azimuth pts ≤ 1) ∨
    dropCountFrom s.prev_azimuth pts = 0

/-- The frame and leftover of the C9 witness call. -/
def c9wOut : Option PcdFrame × List Pt :=
  match points_to_frames cexWrap with
  | .ok r => r
  | .error _ => (none, [])

/-! ## C2: frame geometry for single-beam-count column streams -/

/-- The `i`-th point of a well-formed `B`-beam column stream: azimuth, row
index and payload are arbitrary functions of the global index, the laser id
counts `0..B-1` cyclically, the column index starts at 0. -/
def famPt (B : Nat) (f g h : Nat → Nat) (i : Nat) : Pt :=
  ⟨f i, i % B, g i, 0, h i⟩

/-- The first `n` points of the column stream. -/
def famInput (B n : Nat) (f g h : Nat → Nat) : List Pt :=
  (List.range n).map (famPt B f g h)

/-- The C2 witness frame: the frame emitted on the wraparound input. -/
def c2wF : PcdFrame :=
  match points_to_frames (famInput 16 48 azWrapOnce (fun i => i % 16) (fun i => i)) with
  | .ok (some F, _) => F
  | _ => ⟨[], 0, 0⟩

/-- The C2 witness leftover. -/
def c2wL : List Pt :=
  match points_to_frames (famInput 16 48 azWrapOnce (fun i => i % 16) (fun i => i)) with
  | .ok (_, l) => l
  | _ => []

/-! ## The one-revolution family: state characterization

For claims C1, C3 and C4 the input is one full revolution of `k` well-formed
`B`-beam columns (azimuth adjacent-increasing), an azimuth drop at the first
point of column `k`, and an adjacent-increasing tail.  The state of the
assembler after any prefix of such an input is fully explicit. -/

/-- The column index stored on point `i` by the assembler on the
one-revolution family: `i / B` until the drop at `k * B`, restarting at 1
from there (the emission resets the counter to 0 and the immediate flush of
the revolution's final column advances it to 1). -/
def famCol (B k i : Nat) : Nat :=
  if i < k * B then i / B else (i - k * B) / B + 1

/-- Point `i` of the family as stored by the assembler (column index
assigned). -/
def famStored (B k : Nat) (f g h : Nat → Nat) (i : Nat) : Pt :=
  ⟨f i, i % B, g i, famCol B k i, h i⟩

/-- The frame emitted at the azimuth drop: the first `k - 1` completed
columns, chunk-sorted by row index, with height `B` and width `k - 1`.  The
revolution's final column is not part of it. -/
def famFrame (B k : Nat) (f g h : Nat → Nat) : PcdFrame :=
  ⟨sortChunks B ((List.range ((k - 1) * B)).map (famStored B k f g h)), B, k - 1⟩

/-- The assembler state after the first `c` points of the one-revolution
family. -/
def famState (B k : Nat) (f g h : Nat → Nat) (c : Nat) : AsmState :=
  if c = 0 then initState
  else if c ≤ k * B then
    { frames := none
      remaining_points := (List.range (((c - 1) / B) * B)).map (famStored B k f g h)
      prev_azimuth := some (f (c - 1))
      remaining_channel :=
        (List.range' (((c - 1) / B) * B) (c - ((c - 1) / B) * B)).map (famStored B k f g h)
      prev_laser_id := (c - 1) % B
      col_idx_cnt := (c - 1) / B
      beam_num := if (c - 1) / B = 0 then 0 else B }
  else
    { frames := if 2 ≤ k then some (famFrame B k f g h) else none
      remaining_points :=
        (List.range' ((k - 1) * B) (B + ((c - 1 - k * B) / B) * B)).map (famStored B k f g h)
      prev_azimuth := some (f (c - 1))
      remaining_channel :=
        (List.range' (k * B + ((c - 1 - k * B) / B) * B) (c - k * B - ((c - 1 - k * B) / B) * B)).map
          (famStored B k f g h)
      prev_laser_id := (c - 1) % B
      col_idx_cnt := 1 + (c - 1 - k * B) / B
      beam_num := B }

/-- No column boundary and no azimuth drop anywhere along the list, starting
from the given previous laser id and azimuth. -/
def calmFrom (pl pa : Nat) : List Pt → Bool
  | [] => true
  | p :: rest =>
    decide (pl ≤ p.laser_id) && decide (pa ≤ p.azimuth) && calmFrom p.laser_id p.azimuth rest

/-- Two successive conversion calls over a cut of the input at position `c`:
the first call converts the first `c` points (with an empty carried-over
buffer), the second call drains the first call's leftover buffer in front of
the remaining points, exactly as `convert_single_return` chains them.  The
result pairs the frames emitted by the two calls. -/
def twoCallFrames (pts : List Pt) (c : Nat) :
    Except FrameAssemblyError (Option PcdFrame × Option PcdFrame) :=
  Except.bind (convert_single_return [] (pts.take c)) fun r1 =>
    Except.bind (convert_single_return r1.2 (pts.drop c)) fun r2 =>
      Except.ok (r1.1, r2.1)

@[simp]
theorem ebind_ok {α β : Type} {e : Type} (a : α) (f : α → Except e β) :
    Except.bind (Except.ok a) f = f a := rfl

@[simp]
theorem ebind_error {α β : Type} {e : Type} (err : e) (f : α → Except e β) :
    Except.bind (Except.error err) f = Except.error err := rfl

/-! ## Basic facts about the assembler loop -/

theorem runPoints_append (l1 l2 : List Pt) : ∀ s : AsmState,
    runPoints s (l1 ++ l2) = Except.bind (runPoints s l1) fun s1 => runPoints s1 l2 := by
  induction l1 with
  | nil => intro s; rfl
  | cons p rest ih =>
    intro s
    simp only [List.cons_append, runPoints]
    cases step s p with
    | error e => rfl
    | ok s1 => exact ih s1

theorem step_quiet {s : AsmState} {p : Pt} (hdone : s.remaining_points = [])
    (hl : ¬ p.laser_id < s.prev_laser_id) :
    step s p = .ok (pushPoint s p) := by
  unfold step
  have h1 : ¬(passZeroB s.prev_azimuth p.azimuth = true ∧ 0 < s.remaining_points.length) := by
    rintro ⟨-, h2⟩
    rw [hdone] at h2
    exact absurd h2 (by simp)
  rw [if_neg h1, ebind_ok, if_neg hl, ebind_ok]

theorem runPoints_quiet : ∀ (q : List Pt) (s : AsmState),
    s.remaining_points = [] → lchainFrom s.prev_laser_id q = true →
    runPoints s q = .ok (quietExtend s q) := by
  intro q
  induction q with
  | nil => intro s _ _; rfl
  | cons p rest ih =>
    intro s hdone hchain
    rw [lchainFrom, Bool.and_eq_true, decide_eq_true_eq] at hchain
    obtain ⟨h1, h2⟩ := hchain
    simp only [runPoints]
    rw [step_quiet hdone (by omega)]
    exact ih (pushPoint s p) hdone h2

theorem quietExtend_remaining_points : ∀ (q : List Pt) (s : AsmState),
    (quietExtend s q).remaining_points = s.remaining_points := by
  intro q
  induction q with
  | nil => intro s; rfl
  | cons p rest ih => intro s; exact ih (pushPoint s p)

theorem quietExtend_frames : ∀ (q : List Pt) (s : AsmState),
    (quietExtend s q).frames = s.frames := by
  intro q
  induction q with
  | nil => intro s; rfl
  | cons p rest ih => intro s; exact ih (pushPoint s p)

theorem quietExtend_channel_length : ∀ (q : List Pt) (s : AsmState),
    (quietExtend s q).remaining_channel.length = s.remaining_channel.length + q.length := by
  intro q
  induction q with
  | nil => intro s; rfl
  | cons p rest ih =>
    intro s
    rw [quietExtend, ih]
    simp [pushPoint]
    omega

theorem quietExtend_prev_laser : ∀ (q : List Pt) (s : AsmState), q ≠ [] →
    (quietExtend s q).prev_laser_id = lastLaserD q := by
  intro q
  induction q with
  | nil => intro s h; exact absurd rfl h
  | cons p rest ih =>
    intro s _
    cases rest with
    | nil => rfl
    | cons r t =>
      rw [quietExtend, ih (pushPoint s p) (by simp)]
      rfl

theorem step_flush_error {s : AsmState} {p : Pt}
    (hdone : s.remaining_points = [])
    (hl : p.laser_id < s.prev_laser_id)
    (hbad : ¬(s.prev_laser_id = 15 ∨ s.prev_laser_id = 31) ∨
            ¬(s.remaining_channel.length = 16 ∨ s.remaining_channel.length = 32)) :
    step s p = .error .laserIdAssert ∨ step s p = .error .channelLenAssert := by
  unfold step
  have h1 : ¬(passZeroB s.prev_azimuth p.azimuth = true ∧ 0 < s.remaining_points.length) := by
    rintro ⟨-, h2⟩
    rw [hdone] at h2
    exact absurd h2 (by simp)
  rw [if_neg h1, ebind_ok, if_pos hl]
  unfold flushColumn
  by_cases hA : s.prev_laser_id = 15 ∨ s.prev_laser_id = 31
  · rcases hbad with hb | hb
    · exact absurd hA hb
    · rw [if_pos hA, if_neg hb, ebind_error]
      right
      rfl
  · rw [if_neg hA, ebind_error]
    left
    rfl

theorem runPoints_error_cons {s : AsmState} {p : Pt} {rest : List Pt} {e : FrameAssemblyError}
    (h : step s p = .error e) : runPoints s (p :: rest) = .error e := by
  simp only [runPoints, h]

/-- C5: a short completed column followed by a column boundary. -/
theorem C5_beam_count_mismatch_fatal (q : List Pt) (p : Pt) (rest : List Pt)
    (hne : q ≠ []) (hchain : lchainFrom 0 q = true)
    (hb : p.laser_id < lastLaserD q)
    (hlen16 : q.length ≠ 16) (hlen32 : q.length ≠ 32) :
    isStructuralError (points_to_frames (q ++ p :: rest)) = true := by
  have hrun : runPoints initState q = .ok (quietExtend initState q) :=
    runPoints_quiet q initState rfl hchain
  have hdone0 : (quietExtend initState q).remaining_points = [] := by
    rw [quietExtend_remaining_points]
    rfl
  have hpl : (quietExtend initState q).prev_laser_id = lastLaserD q :=
    quietExtend_prev_laser q initState hne
  have hchlen : (quietExtend initState q).remaining_channel.length = q.length := by
    rw [quietExtend_channel_length]
    simp [initState]
  have hb1 : p.laser_id < (quietExtend initState q).prev_laser_id := by
    rw [hpl]
    exact hb
  have herr := step_flush_error hdone0 hb1 (Or.inr (by rw [hchlen]; tauto))
  unfold points_to_frames
  rw [runPoints_append, hrun, ebind_ok]
  rcases herr with h | h <;> rw [runPoints_error_cons h] <;> rfl

theorem C5_beam_count_mismatch_fatal_witness :
    shortColumn ≠ [] ∧ lchainFrom 0 shortColumn = true ∧
    (⟨10, 0, 0, 0, 99⟩ : Pt).laser_id < lastLaserD shortColumn ∧
    shortColumn.length ≠ 16 ∧ shortColumn.length ≠ 32 ∧
    isStructuralError (points_to_frames (shortColumn ++ ⟨10, 0, 0, 0, 99⟩ :: [])) = true :=
  ⟨by decide, by decide, by decide, by decide, by decide,
    C5_beam_count_mismatch_fatal shortColumn ⟨10, 0, 0, 0, 99⟩ []
      (by decide) (by decide) (by decide) (by decide) (by decide)⟩

theorem flushColumn_analysis (s : AsmState) :
    (flushColumn s = .error .laserIdAssert) ∨ (flushColumn s = .error .channelLenAssert) ∨
    ((s.prev_laser_id = 15 ∨ s.prev_laser_id = 31) ∧
      flushColumn s = .ok { s with
        beam_num := s.prev_laser_id + 1,
        remaining_points := s.remaining_points ++ s.remaining_channel,
        remaining_channel := [],
        col_idx_cnt := s.col_idx_cnt + 1 }) := by
  unfold flushColumn
  by_cases hA : s.prev_laser_id = 15 ∨ s.prev_laser_id = 31
  · by_cases hB : s.remaining_channel.length = 16 ∨ s.remaining_channel.length = 32
    · right; right
      rw [if_pos hA, if_pos hB]
      exact ⟨hA, rfl⟩
    · right; left
      rw [if_pos hA, if_neg hB]
  · left
    rw [if_neg hA]

theorem step_divSafe_goodBeam {s : AsmState} (h : goodBeam s) (p : Pt) :
    divisionSafe (step s p) = true ∧ ∀ s1, step s p = .ok s1 → goodBeam s1 := by
  unfold step
  have flushPart : ∀ t : AsmState, goodBeam t →
      divisionSafe (Except.bind
        (if p.laser_id < t.prev_laser_id then flushColumn t else .ok t)
        fun s2 => .ok (pushPoint s2 p)) = true ∧
      ∀ s1, (Except.bind
        (if p.laser_id < t.prev_laser_id then flushColumn t else .ok t)
        fun s2 => .ok (pushPoint s2 p)) = .ok s1 → goodBeam s1 := by
    intro t ht
    by_cases hfl : p.laser_id < t.prev_laser_id
    · rw [if_pos hfl]
      rcases flushColumn_analysis t with he | he | ⟨hpl, he⟩
      · rw [he, ebind_error]; exact ⟨rfl, fun s1 h1 => Except.noConfusion h1⟩
      · rw [he, ebind_error]; exact ⟨rfl, fun s1 h1 => Except.noConfusion h1⟩
      · rw [he, ebind_ok]
        refine ⟨rfl, fun s1 h1 => ?_⟩
        cases h1
        intro _
        show t.prev_laser_id + 1 = 16 ∨ t.prev_laser_id + 1 = 32
        omega
    · rw [if_neg hfl, ebind_ok]
      refine ⟨rfl, fun s1 h1 => ?_⟩
      cases h1
      intro hne
      exact ht hne
  by_cases hc : passZeroB s.prev_azimuth p.azimuth = true ∧ 0 < s.remaining_points.length
  · rw [if_pos hc]
    have hbeam : s.beam_num = 16 ∨ s.beam_num = 32 :=
      h (List.length_pos.mp hc.2)
    unfold emitFrame
    rw [if_neg (by omega), ebind_ok]
    exact flushPart _ (fun hne => absurd rfl hne)
  · rw [if_neg hc, ebind_ok]
    exact flushPart s h

theorem runPoints_divSafe_goodBeam : ∀ (pts : List Pt) (s : AsmState), goodBeam s →
    divisionSafe (runPoints s pts) = true ∧
    ∀ s1, runPoints s pts = .ok s1 → goodBeam s1 := by
  intro pts
  induction pts with
  | nil =>
    intro s h
    exact ⟨rfl, fun s1 h1 => by cases h1; exact h⟩
  | cons p rest ih =>
    intro s h
    obtain ⟨h1, h2⟩ := step_divSafe_goodBeam h p
    simp only [runPoints]
    cases hst : step s p with
    | error e =>
      rw [hst] at h1
      exact ⟨h1, fun s1 he => Except.noConfusion he⟩
    | ok s1 => exact ih s1 (h2 s1 hst)

/-- C10: the emission branch always sees a 16- or 32-beam count when the
revolution buffer is non-empty, so the chunk-size division is never by
zero. -/
theorem C10_no_division_by_zero (pts : List Pt) :
    (divisionSafe (runPoints initState pts) && beamOk (runPoints initState pts)) = true := by
  obtain ⟨h1, h2⟩ := runPoints_divSafe_goodBeam pts initState (fun hne => absurd rfl hne)
  rw [h1, Bool.true_and]
  unfold beamOk
  cases hr : runPoints initState pts with
  | error e => rfl
  | ok s =>
    show (s.remaining_points.isEmpty || (s.beam_num == 16 || s.beam_num == 32)) = true
    by_cases hd : s.remaining_points = []
    · rw [List.isEmpty_iff.mpr hd]
      rfl
    · rcases h2 s hr hd with hb | hb <;> rw [hb] <;> simp

/-! ## C6: external calibration-table validation -/

/-- C6: `ParamsConfig::from_str` rejects a non-positive distance resolution,
a declared laser count differing from the table length and a laser id
sequence that is not exactly `0, 1, 2, ...`, each with the error naming the
violated invariant; it accepts every well-formed consecutive 16- or 32-entry
table in full. -/
theorem C6_calibration_validation :
    (∀ c : ParamsConfig, c.distance_resolution ≤ 0 →
      ParamsConfig.from_str c = .error .nonPositiveResolution) ∧
    (∀ c : ParamsConfig, 0 < c.distance_resolution → c.num_lasers ≠ c.lasers.length →
      ParamsConfig.from_str c = .error .numLasersMismatch) ∧
    (∀ c : ParamsConfig, 0 < c.distance_resolution → c.num_lasers = c.lasers.length →
      consecutiveFromZero c.lasers = false →
      ParamsConfig.from_str c = .error .nonConsecutiveLaserId) ∧
    (∀ c : ParamsConfig, 0 < c.distance_resolution → c.num_lasers = c.lasers.length →
      consecutiveFromZero c.lasers = true →
      (c.lasers.length = 16 ∨ c.lasers.length = 32) →
      ParamsConfig.from_str c = .ok c) := by
  refine ⟨fun c h1 => ?_, fun c h1 h2 => ?_, fun c h1 h2 h3 => ?_, fun c h1 h2 h3 _ => ?_⟩
  · unfold ParamsConfig.from_str
    rw [if_neg (not_lt.mpr h1)]
  · unfold ParamsConfig.from_str
    rw [if_pos h1, if_neg h2]
  · unfold ParamsConfig.from_str
    rw [if_pos h1, if_pos h2, if_neg (by rw [h3]; exact Bool.false_ne_true)]
  · unfold ParamsConfig.from_str
    rw [if_pos h1, if_pos h2, if_pos h3]

theorem C6_calibration_validation_witness :
    ParamsConfig.from_str tblRes0 = .error .nonPositiveResolution ∧
    ParamsConfig.from_str tblShort = .error .numLasersMismatch ∧
    ParamsConfig.from_str tblDup = .error .nonConsecutiveLaserId ∧
    ParamsConfig.from_str (mkTable 16) = .ok (mkTable 16) ∧
    ParamsConfig.from_str (mkTable 32) = .ok (mkTable 32) :=
  ⟨C6_calibration_validation.1 tblRes0 (by decide),
   C6_calibration_validation.2.1 tblShort (by decide) (by decide),
   C6_calibration_validation.2.2.1 tblDup (by decide) (by decide) (by decide),
   C6_calibration_validation.2.2.2 (mkTable 16) (by decide) (by decide) (by decide)
     (Or.inl (by decide)),
   C6_calibration_validation.2.2.2 (mkTable 32) (by decide) (by decide) (by decide)
     (Or.inr (by decide))⟩

/-! ## C7: packet view length gate -/

/-- C7: `Packet::from_slice` succeeds exactly on buffers of the compile-time
packet size, and on any other length fails with the expected and the actual
length, decoding nothing. -/
theorem C7_from_slice_length_gate (buffer : List Nat) :
    ((∃ p, Packet.from_slice buffer = .ok p) ↔ buffer.length = PACKET_SIZE) ∧
    (buffer.length ≠ PACKET_SIZE →
      Packet.from_slice buffer = .error ⟨PACKET_SIZE, buffer.length⟩) := by
  constructor
  · constructor
    · rintro ⟨p, hp⟩
      by_contra hlen
      unfold Packet.from_slice at hp
      rw [if_neg hlen] at hp
      exact Except.noConfusion hp
    · intro hlen
      refine ⟨decodePacket buffer, ?_⟩
      unfold Packet.from_slice
      rw [if_pos hlen]
  · intro hlen
    unfold Packet.from_slice
    rw [if_neg hlen]

theorem C7_from_slice_length_gate_witness :
    ([] : List Nat).length ≠ PACKET_SIZE ∧
    Packet.from_slice [] = .error ⟨PACKET_SIZE, ([] : List Nat).length⟩ :=
  ⟨by decide, (C7_from_slice_length_gate []).2 (by decide)⟩

/-! ## C8: distance masking -/

/-- C8: the decoded distance is the raw 32-bit word masked to its low
20 bits, independent of the upper 12 bits. -/
theorem C8_distance_masking :
    (∀ p : Pixel, p.distance_millimeter = p.raw_distance % 2 ^ 20) ∧
    (∀ lo hi r sg n pd : Nat, lo < 2 ^ 20 →
      Pixel.distance_millimeter ⟨lo + 2 ^ 20 * hi, r, sg, n, pd⟩ = lo) := by
  have hmask : ∀ raw : Nat, Nat.land raw 0xfffff = raw % 2 ^ 20 := by
    intro raw
    apply Nat.eq_of_testBit_eq
    intro i
    rw [Nat.testBit_mod_two_pow]
    show Nat.testBit (raw &&& (2 ^ 20 - 1)) i = _
    rw [Nat.testBit_land, Nat.testBit_two_pow_sub_one, Bool.and_comm]
  constructor
  · intro p
    exact hmask p.raw_distance
  · intro lo hi r sg n pd h
    show Nat.land (lo + 2 ^ 20 * hi) 0xfffff = lo
    rw [hmask, Nat.add_mul_mod_self_left, Nat.mod_eq_of_lt h]

theorem C8_distance_masking_witness :
    (12345 : Nat) < 2 ^ 20 ∧
    Pixel.distance_millimeter ⟨12345 + 2 ^ 20 * 4095, 7, 8, 9, 0⟩ = 12345 :=
  ⟨by decide, C8_distance_masking.2 12345 4095 7 8 9 0 (by decide)⟩

/-- C1 counterexample: on the wraparound input, the assembler emits exactly
one frame at the drop, but the frame holds 16 points, not the 32 points that
precede the drop — the revolution's final column is left for the next
frame.  -/
theorem C1_counterexample :
    lasersCyclic 16 cexWrap = true ∧
    strictIncAz (cexWrap.take 32) = true ∧
    strictIncAz (cexWrap.drop 32) = true ∧
    dropCount cexWrap = 1 ∧
    emittedLen (points_to_frames cexWrap) = some 16 ∧
    (some 16 : Option Nat) ≠ some 32 := by
  refine ⟨by decide, by decide, by decide, by decide, by decide, by decide⟩

/-- C2 counterexample: the frame emitted from the mixed-beam input has 48
points but height 32 and width 2, so `len(points) ≠ height * width`. -/
theorem C2_counterexample :
    emittedLen (points_to_frames cexMixed) = some 48 ∧
    emittedHeight (points_to_frames cexMixed) = some 32 ∧
    emittedWidth (points_to_frames cexMixed) = some 2 ∧
    (48 : Nat) ≠ 32 * 2 := by
  refine ⟨by decide, by decide, by decide, by decide⟩

/-- C3 counterexample: when two revolutions complete in one call, the frame
returned is the one completed last (32 points), not the oldest pending one
(the 16-point frame that a call stopped right after the first drop would
return). -/
theorem C3_counterexample :
    lasersCyclic 16 cexTwoRevs = true ∧
    dropCount cexTwoRevs = 2 ∧
    emittedLen (points_to_frames (cexTwoRevs.take 33)) = some 16 ∧
    emittedLen (points_to_frames cexTwoRevs) = some 32 ∧
    (some 32 : Option Nat) ≠ some 16 := by
  refine ⟨by decide, by decide, by decide, by decide, by decide⟩

/-- C9 counterexample: on the two-revolution input the call succeeds and
emits a frame, yet the point with stamp 0 (part of the first, overwritten
frame) appears neither in the returned frame nor in the leftover buffer —
it is dropped. -/
theorem C9_counterexample :
    stampIn 0 cexTwoRevs = true ∧
    emittedLen (points_to_frames cexTwoRevs) = some 32 ∧
    resultHasStamp 0 (points_to_frames cexTwoRevs) = false := by
  refine ⟨by decide, by decide, by decide⟩

/-! ## C9: point conservation (single-emission calls) -/

theorem sortChunksGo_perm (B : Nat) : ∀ (n : Nat) (l : List Pt),
    (sortChunksGo B n l).Perm l := by
  intro n
  induction n with
  | zero => intro l; exact List.Perm.refl l
  | succ n ih =>
    intro l
    show (sortCol (l.take B) ++ sortChunksGo B n (l.drop B)).Perm l
    have h := List.Perm.append (List.perm_insertionSort rowLe (l.take B)) (ih (l.drop B))
    rwa [List.take_append_drop] at h

theorem sortChunks_perm (B : Nat) (l : List Pt) : (sortChunks B l).Perm l :=
  sortChunksGo_perm B (l.length / B) l

theorem stateBag_push (t : AsmState) (p : Pt) :
    stateBag (pushPoint t p) = stateBag t ++ [eraseColIdx p] := by
  unfold stateBag pushPoint eraseColIdx
  simp

theorem stateBag_flush {t tf : AsmState} (h : flushColumn t = .ok tf) :
    stateBag tf = stateBag t ∧ tf.frames = t.frames ∧ tf.prev_laser_id = t.prev_laser_id := by
  rcases flushColumn_analysis t with he | he | ⟨-, he⟩
  · rw [he] at h; exact Except.noConfusion h
  · rw [he] at h; exact Except.noConfusion h
  · rw [he] at h
    cases h
    refine ⟨?_, rfl, rfl⟩
    unfold stateBag
    simp

theorem emitFrame_ok_fields {t te : AsmState} (h : emitFrame t = .ok te) :
    te.prev_azimuth = t.prev_azimuth ∧ te.prev_laser_id = t.prev_laser_id ∧
    te.remaining_channel = t.remaining_channel ∧ te.remaining_points = [] ∧
    te.frames = some ⟨sortChunks t.beam_num t.remaining_points, t.beam_num, t.col_idx_cnt⟩ := by
  unfold emitFrame at h
  by_cases hb : t.beam_num = 0
  · rw [if_pos hb] at h; exact Except.noConfusion h
  · rw [if_neg hb] at h
    cases h
    exact ⟨rfl, rfl, rfl, rfl, rfl⟩

theorem stateBag_emit {t te : AsmState} (h : emitFrame t = .ok te) (hfr : t.frames = none) :
    (stateBag te).Perm (stateBag t) := by
  obtain ⟨-, -, hch, hrp, hfrE⟩ := emitFrame_ok_fields h
  unfold stateBag
  rw [hch, hrp, hfrE, hfr]
  unfold frameData
  simp only [List.append_nil, List.nil_append]
  exact List.Perm.map eraseColIdx
    ((sortChunks_perm t.beam_num t.remaining_points).append_right t.remaining_channel)

/-- Every successful `step` factors into an optional emission, an optional
flush and the final push. -/
theorem step_ok_analysis {s : AsmState} {p : Pt} {s1 : AsmState} (hst : step s p = .ok s1) :
    ∃ sa sb : AsmState,
      ((¬(passZeroB s.prev_azimuth p.azimuth = true ∧ 0 < s.remaining_points.length) ∧ sa = s) ∨
       ((passZeroB s.prev_azimuth p.azimuth = true ∧ 0 < s.remaining_points.length) ∧
         emitFrame s = .ok sa)) ∧
      ((¬(p.laser_id < sa.prev_laser_id) ∧ sb = sa) ∨
       (p.laser_id < sa.prev_laser_id ∧ flushColumn sa = .ok sb)) ∧
      s1 = pushPoint sb p := by
  unfold step at hst
  by_cases hc1 : passZeroB s.prev_azimuth p.azimuth = true ∧ 0 < s.remaining_points.length
  · rw [if_pos hc1] at hst
    cases ha : emitFrame s with
    | error e => rw [ha, ebind_error] at hst; exact Except.noConfusion hst
    | ok sa =>
      rw [ha, ebind_ok] at hst
      by_cases hc2 : p.laser_id < sa.prev_laser_id
      · rw [if_pos hc2] at hst
        cases hb : flushColumn sa with
        | error e => rw [hb, ebind_error] at hst; exact Except.noConfusion hst
        | ok sb =>
          rw [hb, ebind_ok] at hst
          cases hst
          exact ⟨sa, sb, Or.inr ⟨hc1, rfl⟩, Or.inr ⟨hc2, hb⟩, rfl⟩
      · rw [if_neg hc2, ebind_ok] at hst
        cases hst
        exact ⟨sa, sa, Or.inr ⟨hc1, rfl⟩, Or.inl ⟨hc2, rfl⟩, rfl⟩
  · rw [if_neg hc1, ebind_ok] at hst
    by_cases hc2 : p.laser_id < s.prev_laser_id
    · rw [if_pos hc2] at hst
      cases hb : flushColumn s with
      | error e => rw [hb, ebind_error] at hst; exact Except.noConfusion hst
      | ok sb =>
        rw [hb, ebind_ok] at hst
        cases hst
        exact ⟨s, sb, Or.inl ⟨hc1, rfl⟩, Or.inr ⟨hc2, hb⟩, rfl⟩
    · rw [if_neg hc2, ebind_ok] at hst
      cases hst
      exact ⟨s, s, Or.inl ⟨hc1, rfl⟩, Or.inl ⟨hc2, rfl⟩, rfl⟩

theorem step_conserve {s : AsmState} {p : Pt} {s1 : AsmState} (rest : List Pt)
    (hst : step s p = .ok s1) (hH : atMostOneDrop s (p :: rest)) :
    (stateBag s1).Perm (stateBag s ++ [eraseColIdx p]) ∧ atMostOneDrop s1 rest := by
  obtain ⟨sa, sb, hA, hB, hs1⟩ := step_ok_analysis hst
  have hbagB : stateBag sb = stateBag sa ∧ sb.frames = sa.frames := by
    rcases hB with ⟨-, rfl⟩ | ⟨-, hfl⟩
    · exact ⟨rfl, rfl⟩
    · obtain ⟨h1, h2, -⟩ := stateBag_flush hfl
      exact ⟨h1, h2⟩
  have haz1 : s1.prev_azimuth = some p.azimuth := by rw [hs1]; rfl
  have hfr1 : s1.frames = sb.frames := by rw [hs1]; rfl
  have hbag1 : stateBag s1 = stateBag sb ++ [eraseColIdx p] := by
    rw [hs1]; exact stateBag_push sb p
  -- case split on whether the azimuth dropped at p
  by_cases hdrop : passZeroB s.prev_azimuth p.azimuth = true
  · -- a drop: the previous azimuth exists and exceeds the current one
    obtain ⟨a, ha⟩ : ∃ a, s.prev_azimuth = some a := by
      cases hpa : s.prev_azimuth with
      | none => rw [hpa] at hdrop; exact absurd hdrop (by simp [passZeroB])
      | some a => exact ⟨a, rfl⟩
    have hlt : p.azimuth < a := by
      rw [ha] at hdrop
      simpa [passZeroB] using hdrop
    have hcount : dropCountFrom s.prev_azimuth (p :: rest) =
        1 + dropCountFrom (some p.azimuth) rest := by
      rw [ha]
      simp only [dropCountFrom]
      rw [if_pos hlt]
    have hleft : s.frames = none ∧ dropCountFrom (some p.azimuth) rest = 0 := by
      rcases hH with ⟨h1, h2⟩ | h1
      · rw [hcount] at h2
        exact ⟨h1, by omega⟩
      · rw [hcount] at h1
        omega
    have hbagA : (stateBag sa).Perm (stateBag s) ∧ (sa.frames = s.frames ∨ sa.frames ≠ none) := by
      rcases hA with ⟨-, rfl⟩ | ⟨-, hem⟩
      · exact ⟨List.Perm.refl _, Or.inl rfl⟩
      · refine ⟨stateBag_emit hem hleft.1, Or.inr ?_⟩
        obtain ⟨-, -, -, -, hfrE⟩ := emitFrame_ok_fields hem
        rw [hfrE]
        simp
    refine ⟨?_, ?_⟩
    · rw [hbag1, hbagB.1]
      exact hbagA.1.append_right [eraseColIdx p]
    · right
      rw [haz1]
      exact hleft.2
  · -- no drop at p
    have hcount : dropCountFrom s.prev_azimuth (p :: rest) =
        dropCountFrom (some p.azimuth) rest := by
      cases hpa : s.prev_azimuth with
      | none => rfl
      | some a =>
        have : ¬ p.azimuth < a := by
          rw [hpa] at hdrop
          simpa [passZeroB] using hdrop
        simp only [dropCountFrom]
        rw [if_neg this]
        exact Nat.zero_add _
    have hAeq : sa = s := by
      rcases hA with ⟨-, rfl⟩ | ⟨hcond, -⟩
      · rfl
      · exact absurd hcond.1 hdrop
    refine ⟨?_, ?_⟩
    · rw [hbag1, hbagB.1, hAeq]
    · rcases hH with ⟨h1, h2⟩ | h1
      · left
        rw [hfr1, hbagB.2, hAeq, haz1]
        rw [hcount] at h2
        exact ⟨h1, h2⟩
      · right
        rw [haz1]
        rw [hcount] at h1
        exact h1

theorem runPoints_conserve : ∀ (pts : List Pt) (s s1 : AsmState),
    atMostOneDrop s pts → runPoints s pts = .ok s1 →
    (stateBag s1).Perm (stateBag s ++ pts.map eraseColIdx) := by
  intro pts
  induction pts with
  | nil =>
    intro s s1 _ h
    cases h
    simp
  | cons p rest ih =>
    intro s s1 hH hrun
    simp only [runPoints] at hrun
    cases hst : step s p with
    | error e => rw [hst] at hrun; exact Except.noConfusion hrun
    | ok sm =>
      rw [hst] at hrun
      obtain ⟨hbag, hH2⟩ := step_conserve rest hst hH
      have := (ih sm s1 hH2 hrun).trans (hbag.append_right (rest.map eraseColIdx))
      simpa [List.append_assoc] using this

/-- C9 (amended): when at most one revolution completes in the call, every
input point ends up exactly once in the emitted frame or the leftover, with
only its column index modified. -/
theorem C9_point_conservation (pts : List Pt) (o : Option PcdFrame) (l : List Pt)
    (hdrops : dropCount pts ≤ 1) (hrun : points_to_frames pts = .ok (o, l)) :
    ((frameData o ++ l).map eraseColIdx).Perm (pts.map eraseColIdx) := by
  unfold points_to_frames at hrun
  cases hr : runPoints initState pts with
  | error e => rw [hr] at hrun; exact Except.noConfusion hrun
  | ok s =>
    rw [hr] at hrun
    cases hrun
    have hmain := runPoints_conserve pts initState s
      (Or.inl ⟨rfl, hdrops⟩) hr
    have hbag : stateBag s =
        (frameData s.frames ++ (s.remaining_points ++ s.remaining_channel)).map eraseColIdx := by
      unfold stateBag
      rw [List.append_assoc]
    rw [hbag] at hmain
    simpa [stateBag, initState, frameData] using hmain

theorem C9_point_conservation_witness :
    dropCount cexWrap ≤ 1 ∧
    ((frameData c9wOut.1 ++ c9wOut.2).map eraseColIdx).Perm (cexWrap.map eraseColIdx) :=
  ⟨by decide, C9_point_conservation cexWrap c9wOut.1 c9wOut.2 (by decide) (by rfl)⟩

theorem runPoints_single (s : AsmState) (p : Pt) : runPoints s [p] = step s p := by
  simp only [runPoints]
  cases step s p <;> rfl

theorem sortChunksGo_length (B : Nat) : ∀ (n : Nat) (l : List Pt),
    (sortChunksGo B n l).length = l.length := by
  intro n
  induction n with
  | zero => intro l; rfl
  | succ n ih =>
    intro l
    show (sortCol (l.take B) ++ sortChunksGo B n (l.drop B)).length = l.length
    rw [List.length_append, ih]
    unfold sortCol
    rw [List.length_insertionSort, List.length_take, List.length_drop]
    omega

theorem sortChunks_length (B : Nat) (l : List Pt) : (sortChunks B l).length = l.length :=
  sortChunksGo_length B (l.length / B) l

theorem nondecRow_sorted : ∀ l : List Pt, List.Sorted rowLe l → nondecRow l = true := by
  intro l
  induction l with
  | nil => intro _; rfl
  | cons a t ih =>
    intro hs
    cases t with
    | nil => rfl
    | cons b t2 =>
      rw [List.sorted_cons] at hs
      show (decide (a.row_idx ≤ b.row_idx) && nondecRow (b :: t2)) = true
      rw [Bool.and_eq_true, decide_eq_true_eq]
      exact ⟨hs.1 b (by simp), ih hs.2⟩

theorem nondecChunksGo_sortChunksGo (B : Nat) (hB : B ≠ 0) : ∀ (n : Nat) (l : List Pt),
    B * n ≤ l.length → nondecChunksGo B n (sortChunksGo B n l) = true := by
  intro n
  induction n with
  | zero => intro l _; rfl
  | succ n ih =>
    intro l hlen
    rw [Nat.mul_succ] at hlen
    have hBle : B ≤ l.length := by omega
    have hlenS : (sortCol (l.take B)).length = B := by
      unfold sortCol
      rw [List.length_insertionSort, List.length_take]
      omega
    show nondecChunksGo B (n + 1) (sortCol (l.take B) ++ sortChunksGo B n (l.drop B)) = true
    show (nondecRow ((sortCol (l.take B) ++ sortChunksGo B n (l.drop B)).take B) &&
      nondecChunksGo B n ((sortCol (l.take B) ++ sortChunksGo B n (l.drop B)).drop B)) = true
    rw [Bool.and_eq_true, List.take_left' hlenS, List.drop_left' hlenS]
    constructor
    · exact nondecRow_sorted _ (List.sorted_insertionSort rowLe (l.take B))
    · apply ih
      rw [List.length_drop]
      omega

theorem nondecChunks_sortChunks (B : Nat) (hB : B ≠ 0) (l : List Pt) :
    nondecChunks B (sortChunks B l) = true := by
  unfold nondecChunks
  rw [sortChunks_length]
  exact nondecChunksGo_sortChunksGo B hB (l.length / B) l
    (by rw [Nat.mul_comm]; exact Nat.div_mul_le_self l.length B)

theorem beamArith1 {B : Nat} (hB : B = 16 ∨ B = 32) (c : Nat) :
    c % B < (c - 1) % B ↔ (1 ≤ c ∧ c % B = 0) := by
  rcases hB with rfl | rfl <;> omega

theorem beamArith2 {B : Nat} (hB : B = 16 ∨ B = 32) (c : Nat) (h1 : 1 ≤ c)
    (h2 : c % B = 0) : (c - 1) % B = B - 1 := by
  rcases hB with rfl | rfl <;> omega

theorem beamArith3 {B : Nat} (hB : B = 16 ∨ B = 32) (c : Nat) (h1 : 1 ≤ c)
    (h2 : c % B = 0) : c - ((c - 1) / B) * B = B := by
  rcases hB with rfl | rfl <;> omega

theorem beamArith4 {B : Nat} (hB : B = 16 ∨ B = 32) (c : Nat) (h : ¬(1 ≤ c ∧ c % B = 0)) :
    (c + 1) - (((c + 1) - 1) / B) * B = (c - ((c - 1) / B) * B) + 1 := by
  rcases hB with rfl | rfl <;> omega

theorem beamArith5 {B : Nat} (hB : B = 16 ∨ B = 32) (c : Nat) (h1 : 1 ≤ c)
    (h2 : c % B = 0) : (c + 1) - (((c + 1) - 1) / B) * B = 1 := by
  rcases hB with rfl | rfl <;> omega

/-! ### Closed forms of `step` under decided conditions -/

theorem step_noEmit_noFlush {s : AsmState} {p : Pt}
    (hne : ¬(passZeroB s.prev_azimuth p.azimuth = true ∧ 0 < s.remaining_points.length))
    (hnf : ¬ p.laser_id < s.prev_laser_id) :
    step s p = .ok (pushPoint s p) := by
  unfold step
  rw [if_neg hne, ebind_ok, if_neg hnf, ebind_ok]

theorem step_noEmit_flush {s : AsmState} {p : Pt}
    (hne : ¬(passZeroB s.prev_azimuth p.azimuth = true ∧ 0 < s.remaining_points.length))
    (hf : p.laser_id < s.prev_laser_id)
    (hA : s.prev_laser_id = 15 ∨ s.prev_laser_id = 31)
    (hL : s.remaining_channel.length = 16 ∨ s.remaining_channel.length = 32) :
    step s p = .ok (pushPoint { s with
      beam_num := s.prev_laser_id + 1,
      remaining_points := s.remaining_points ++ s.remaining_channel,
      remaining_channel := [],
      col_idx_cnt := s.col_idx_cnt + 1 } p) := by
  unfold step
  rw [if_neg hne, ebind_ok, if_pos hf]
  have h2 : flushColumn s = .ok { s with
      beam_num := s.prev_laser_id + 1,
      remaining_points := s.remaining_points ++ s.remaining_channel,
      remaining_channel := [],
      col_idx_cnt := s.col_idx_cnt + 1 } := by
    unfold flushColumn
    rw [if_pos hA, if_pos hL]
  rw [h2, ebind_ok]

theorem step_emit_noFlush {s : AsmState} {p : Pt}
    (he : passZeroB s.prev_azimuth p.azimuth = true ∧ 0 < s.remaining_points.length)
    (hb : s.beam_num ≠ 0)
    (hnf : ¬ p.laser_id < s.prev_laser_id) :
    step s p = .ok (pushPoint { s with
      frames := some ⟨sortChunks s.beam_num s.remaining_points, s.beam_num, s.col_idx_cnt⟩,
      remaining_points := [],
      col_idx_cnt := 0 } p) := by
  unfold step
  rw [if_pos he]
  have h1 : emitFrame s = .ok { s with
      frames := some ⟨sortChunks s.beam_num s.remaining_points, s.beam_num, s.col_idx_cnt⟩,
      remaining_points := [],
      col_idx_cnt := 0 } := by
    unfold emitFrame
    rw [if_neg hb]
  rw [h1]
  simp only [ebind_ok]
  rw [if_neg hnf, ebind_ok]

theorem step_emit_flush {s : AsmState} {p : Pt}
    (he : passZeroB s.prev_azimuth p.azimuth = true ∧ 0 < s.remaining_points.length)
    (hb : s.beam_num ≠ 0)
    (hf : p.laser_id < s.prev_laser_id)
    (hA : s.prev_laser_id = 15 ∨ s.prev_laser_id = 31)
    (hL : s.remaining_channel.length = 16 ∨ s.remaining_channel.length = 32) :
    step s p = .ok (pushPoint { s with
      frames := some ⟨sortChunks s.beam_num s.remaining_points, s.beam_num, s.col_idx_cnt⟩,
      remaining_points := s.remaining_channel,
      remaining_channel := [],
      col_idx_cnt := 1,
      beam_num := s.prev_laser_id + 1 } p) := by
  unfold step
  rw [if_pos he]
  have h1 : emitFrame s = .ok { s with
      frames := some ⟨sortChunks s.beam_num s.remaining_points, s.beam_num, s.col_idx_cnt⟩,
      remaining_points := [],
      col_idx_cnt := 0 } := by
    unfold emitFrame
    rw [if_neg hb]
  rw [h1]
  simp only [ebind_ok]
  rw [if_pos hf]
  have h2 : flushColumn { s with
      frames := some ⟨sortChunks s.beam_num s.remaining_points, s.beam_num, s.col_idx_cnt⟩,
      remaining_points := ([] : List Pt),
      col_idx_cnt := 0 } = .ok { s with
      frames := some ⟨sortChunks s.beam_num s.remaining_points, s.beam_num, s.col_idx_cnt⟩,
      remaining_points := s.remaining_channel,
      remaining_channel := [],
      col_idx_cnt := 1,
      beam_num := s.prev_laser_id + 1 } := by
    unfold flushColumn
    rw [if_pos hA, if_pos hL]
    rfl
  rw [h2, ebind_ok]

/-- The state invariant maintained by the assembler on a single-beam-count
column stream: channel fill level and previous laser id track the point
index, the revolution buffer holds whole columns, and any emitted frame
satisfies the grid geometry. -/
theorem C2run (B : Nat) (hB : B = 16 ∨ B = 32) (f g h : Nat → Nat) : ∀ c : Nat,
    ∃ s : AsmState,
      runPoints initState (famInput B c f g h) = .ok s ∧
      s.remaining_channel.length = c - ((c - 1) / B) * B ∧
      s.prev_laser_id = (c - 1) % B ∧
      s.remaining_points.length = s.col_idx_cnt * B ∧
      (s.remaining_points ≠ [] → s.beam_num = B) ∧
      (s.beam_num = 0 ∨ s.beam_num = B) ∧
      (∀ F, s.frames = some F → F.height = B ∧ F.data.length = B * F.width ∧
        nondecChunks B F.data = true) := by
  have hBne0 : B ≠ 0 := by rcases hB with rfl | rfl <;> omega
  intro c
  induction c with
  | zero =>
    refine ⟨initState, rfl, by simp [initState], by simp [initState], by simp [initState],
      fun hne => absurd rfl hne, Or.inl rfl, fun F hF => Option.noConfusion hF⟩
  | succ c ih =>
    obtain ⟨s, hrun, hchan, hpl, hdlen, hbeamNe, hbeam01, hfr⟩ := ih
    have hsplit : famInput B (c + 1) f g h = famInput B c f g h ++ [famPt B f g h c] := by
      unfold famInput
      rw [List.range_succ, List.map_append]
      rfl
    have hplaser : (famPt B f g h c).laser_id = c % B := rfl
    have hprev1 : ((c + 1) - 1) % B = c % B := rfl
    by_cases hemit : passZeroB s.prev_azimuth (famPt B f g h c).azimuth = true ∧
        0 < s.remaining_points.length
    · -- a frame is emitted at this point
      have hdne : s.remaining_points ≠ [] := List.length_pos.mp hemit.2
      have hbeamB : s.beam_num = B := hbeamNe hdne
      have hb : s.beam_num ≠ 0 := by rw [hbeamB]; exact hBne0
      have hFprops : ∀ F : PcdFrame,
          (⟨sortChunks s.beam_num s.remaining_points, s.beam_num, s.col_idx_cnt⟩ : PcdFrame)
            = F → F.height = B ∧ F.data.length = B * F.width ∧
          nondecChunks B F.data = true := by
        intro F hF
        cases hF
        refine ⟨hbeamB, ?_, ?_⟩
        · show (sortChunks s.beam_num s.remaining_points).length = B * s.col_idx_cnt
          rw [sortChunks_length, hdlen, Nat.mul_comm]
        · show nondecChunks B (sortChunks s.beam_num s.remaining_points) = true
          rw [hbeamB]
          exact nondecChunks_sortChunks B hBne0 s.remaining_points
      by_cases hflc : 1 ≤ c ∧ c % B = 0
      · -- emission and column flush
        have hf : (famPt B f g h c).laser_id < s.prev_laser_id := by
          rw [hplaser, hpl]
          exact (beamArith1 hB c).mpr hflc
        have hA : s.prev_laser_id = 15 ∨ s.prev_laser_id = 31 := by
          rw [hpl, beamArith2 hB c hflc.1 hflc.2]
          rcases hB with rfl | rfl <;> omega
        have hL : s.remaining_channel.length = 16 ∨ s.remaining_channel.length = 32 := by
          rw [hchan, beamArith3 hB c hflc.1 hflc.2]
          exact hB
        have hchanB : s.remaining_channel.length = B := by
          rw [hchan]
          exact beamArith3 hB c hflc.1 hflc.2
        refine ⟨_, by rw [hsplit, runPoints_append, hrun, ebind_ok, runPoints_single,
          step_emit_flush hemit hb hf hA hL], ?_, ?_, ?_, ?_, ?_, ?_⟩
        · show ([] ++ [_]).length = (c + 1) - (((c + 1) - 1) / B) * B
          rw [beamArith5 hB c hflc.1 hflc.2]
          rfl
        · show (famPt B f g h c).laser_id = ((c + 1) - 1) % B
          rw [hplaser, hprev1]
        · show s.remaining_channel.length = 1 * B
          rw [hchanB, Nat.one_mul]
        · intro _
          show s.prev_laser_id + 1 = B
          rw [hpl, beamArith2 hB c hflc.1 hflc.2]
          omega
        · right
          show s.prev_laser_id + 1 = B
          rw [hpl, beamArith2 hB c hflc.1 hflc.2]
          omega
        · intro F hF
          exact hFprops F (Option.some.inj hF)
      · -- emission without column flush
        have hnf : ¬ (famPt B f g h c).laser_id < s.prev_laser_id := by
          rw [hplaser, hpl]
          intro hlt
          exact hflc ((beamArith1 hB c).mp hlt)
        refine ⟨_, by rw [hsplit, runPoints_append, hrun, ebind_ok, runPoints_single,
          step_emit_noFlush hemit hb hnf], ?_, ?_, ?_, ?_, ?_, ?_⟩
        · show (s.remaining_channel ++ [_]).length = (c + 1) - (((c + 1) - 1) / B) * B
          rw [List.length_append, hchan, beamArith4 hB c hflc]
          rfl
        · show (famPt B f g h c).laser_id = ((c + 1) - 1) % B
          rw [hplaser, hprev1]
        · show ([] : List Pt).length = 0 * B
          simp
        · intro hne
          exact absurd rfl hne
        · exact hbeam01
        · intro F hF
          exact hFprops F (Option.some.inj hF)
    · -- no emission
      by_cases hflc : 1 ≤ c ∧ c % B = 0
      · -- column flush only
        have hf : (famPt B f g h c).laser_id < s.prev_laser_id := by
          rw [hplaser, hpl]
          exact (beamArith1 hB c).mpr hflc
        have hA : s.prev_laser_id = 15 ∨ s.prev_laser_id = 31 := by
          rw [hpl, beamArith2 hB c hflc.1 hflc.2]
          rcases hB with rfl | rfl <;> omega
        have hL : s.remaining_channel.length = 16 ∨ s.remaining_channel.length = 32 := by
          rw [hchan, beamArith3 hB c hflc.1 hflc.2]
          exact hB
        have hchanB : s.remaining_channel.length = B := by
          rw [hchan]
          exact beamArith3 hB c hflc.1 hflc.2
        refine ⟨_, by rw [hsplit, runPoints_append, hrun, ebind_ok, runPoints_single,
          step_noEmit_flush hemit hf hA hL], ?_, ?_, ?_, ?_, ?_, ?_⟩
        · show ([] ++ [_]).length = (c + 1) - (((c + 1) - 1) / B) * B
          rw [beamArith5 hB c hflc.1 hflc.2]
          rfl
        · show (famPt B f g h c).laser_id = ((c + 1) - 1) % B
          rw [hplaser, hprev1]
        · show (s.remaining_points ++ s.remaining_channel).length = (s.col_idx_cnt + 1) * B
          rw [List.length_append, hdlen, hchanB, Nat.succ_mul]
        · intro _
          show s.prev_laser_id + 1 = B
          rw [hpl, beamArith2 hB c hflc.1 hflc.2]
          omega
        · right
          show s.prev_laser_id + 1 = B
          rw [hpl, beamArith2 hB c hflc.1 hflc.2]
          omega
        · exact hfr
      · -- plain push
        have hnf : ¬ (famPt B f g h c).laser_id < s.prev_laser_id := by
          rw [hplaser, hpl]
          intro hlt
          exact hflc ((beamArith1 hB c).mp hlt)
        refine ⟨_, by rw [hsplit, runPoints_append, hrun, ebind_ok, runPoints_single,
          step_noEmit_noFlush hemit hnf], ?_, ?_, ?_, ?_, ?_, ?_⟩
        · show (s.remaining_channel ++ [_]).length = (c + 1) - (((c + 1) - 1) / B) * B
          rw [List.length_append, hchan, beamArith4 hB c hflc]
          rfl
        · show (famPt B f g h c).laser_id = ((c + 1) - 1) % B
          rw [hplaser, hprev1]
        · exact hdlen
        · exact hbeamNe
        · exact hbeam01
        · exact hfr

/-- C2 (amended): on a well-formed single-beam-count column stream, every
emitted frame satisfies `len(points) = height * width` with `height` the
detected beam count, and each complete `height`-point chunk of the buffer is
non-decreasing in row index. -/
theorem C2_frame_geometry (B n : Nat) (f g h : Nat → Nat) (hB : B = 16 ∨ B = 32)
    (F : PcdFrame) (l : List Pt)
    (hrun : points_to_frames (famInput B n f g h) = .ok (some F, l)) :
    F.height = B ∧ F.data.length = F.height * F.width ∧ nondecChunks B F.data = true := by
  obtain ⟨s, hs, -, -, -, -, -, hframes⟩ := C2run B hB f g h n
  unfold points_to_frames at hrun
  rw [hs] at hrun
  have hpair : (s.frames, s.remaining_points ++ s.remaining_channel) = (some F, l) :=
    Except.ok.inj hrun
  obtain ⟨h1, h2, h3⟩ := hframes F (congrArg Prod.fst hpair)
  exact ⟨h1, by rw [h1]; exact h2, h3⟩

theorem C2_frame_geometry_witness :
    ((16 : Nat) = 16 ∨ (16 : Nat) = 32) ∧
    (c2wF.height = 16 ∧ c2wF.data.length = c2wF.height * c2wF.width ∧
      nondecChunks 16 c2wF.data = true) :=
  ⟨Or.inl rfl, C2_frame_geometry 16 48 azWrapOnce (fun i => i % 16) (fun i => i)
    (Or.inl rfl) c2wF c2wL (by rfl)⟩

theorem asmExt {a b : AsmState} (h1 : a.frames = b.frames)
    (h2 : a.remaining_points = b.remaining_points) (h3 : a.prev_azimuth = b.prev_azimuth)
    (h4 : a.remaining_channel = b.remaining_channel) (h5 : a.prev_laser_id = b.prev_laser_id)
    (h6 : a.col_idx_cnt = b.col_idx_cnt) (h7 : a.beam_num = b.beam_num) : a = b := by
  cases a
  cases b
  simp only [AsmState.mk.injEq]
  exact ⟨h1, h2, h3, h4, h5, h6, h7⟩

theorem mapRange'_congr (st : Nat → Pt) {a n a2 n2 : Nat} (ha : a = a2) (hn : n = n2) :
    (List.range' a n).map st = (List.range' a2 n2).map st := by
  rw [ha, hn]

theorem stored_push_eq (B k : Nat) (f g h : Nat → Nat) (c cnt : Nat)
    (hcol : famCol B k c = cnt) :
    ({ famPt B f g h c with col_idx := cnt } : Pt) = famStored B k f g h c := by
  show Pt.mk (f c) (c % B) (g c) cnt (h c) = famStored B k f g h c
  unfold famStored
  rw [hcol]

theorem famState_zero (B k : Nat) (f g h : Nat → Nat) : famState B k f g h 0 = initState := by
  unfold famState
  rw [if_pos rfl]

theorem famState_mid (B k : Nat) (f g h : Nat → Nat) {c : Nat} (hc1 : 1 ≤ c)
    (hc2 : c ≤ k * B) : famState B k f g h c =
    { frames := none
      remaining_points := (List.range (((c - 1) / B) * B)).map (famStored B k f g h)
      prev_azimuth := some (f (c - 1))
      remaining_channel :=
        (List.range' (((c - 1) / B) * B) (c - ((c - 1) / B) * B)).map (famStored B k f g h)
      prev_laser_id := (c - 1) % B
      col_idx_cnt := (c - 1) / B
      beam_num := if (c - 1) / B = 0 then 0 else B } := by
  unfold famState
  rw [if_neg (by omega), if_pos hc2]

theorem famState_post (B k : Nat) (f g h : Nat → Nat) {c : Nat} (hc : k * B < c) :
    famState B k f g h c =
    { frames := if 2 ≤ k then some (famFrame B k f g h) else none
      remaining_points :=
        (List.range' ((k - 1) * B) (B + ((c - 1 - k * B) / B) * B)).map (famStored B k f g h)
      prev_azimuth := some (f (c - 1))
      remaining_channel :=
        (List.range' (k * B + ((c - 1 - k * B) / B) * B) (c - k * B - ((c - 1 - k * B) / B) * B)).map
          (famStored B k f g h)
      prev_laser_id := (c - 1) % B
      col_idx_cnt := 1 + (c - 1 - k * B) / B
      beam_num := B } := by
  unfold famState
  rw [if_neg (by omega), if_neg (by omega)]

theorem famStep_mid_push (B k : Nat) (hB : B = 16 ∨ B = 32) (hk : 1 ≤ k)
    (f g h : Nat → Nat) {c : Nat} (hc1 : 1 ≤ c) (hlt : c < k * B) (hmod : c % B ≠ 0)
    (hnaz : ¬ f c < f (c - 1)) :
    step (famState B k f g h c) (famPt B f g h c) = .ok (famState B k f g h (c + 1)) := by
  rw [famState_mid B k f g h hc1 (le_of_lt hlt)]
  have hne : ¬(passZeroB (some (f (c - 1))) (f c) = true ∧
      0 < ((List.range (((c - 1) / B) * B)).map (famStored B k f g h)).length) := by
    rintro ⟨h1, -⟩
    exact hnaz (of_decide_eq_true h1)
  have hnf : ¬ (c % B < (c - 1) % B) := by
    rcases hB with rfl | rfl <;> omega
  rw [step_noEmit_noFlush hne hnf, famState_mid B k f g h (by omega) (by omega)]
  simp only [Nat.add_sub_cancel]
  have hdiv : (c - 1) / B = c / B := by
    rcases hB with rfl | rfl <;> omega
  refine congrArg Except.ok (asmExt rfl ?_ rfl ?_ rfl ?_ ?_)
  · show (List.range (((c - 1) / B) * B)).map (famStored B k f g h) =
      (List.range ((c / B) * B)).map (famStored B k f g h)
    rw [hdiv]
  · show ((List.range' (((c - 1) / B) * B) (c - ((c - 1) / B) * B)).map (famStored B k f g h))
        ++ [{ famPt B f g h c with col_idx := (c - 1) / B }] =
      (List.range' ((c / B) * B) (c + 1 - (c / B) * B)).map (famStored B k f g h)
    have hlen : c + 1 - (c / B) * B = (c - ((c - 1) / B) * B) + 1 := by
      rcases hB with rfl | rfl <;> omega
    rw [hlen, ← hdiv, List.range'_1_concat, List.map_append]
    have hc2 : ((c - 1) / B) * B + (c - ((c - 1) / B) * B) = c := by
      rcases hB with rfl | rfl <;> omega
    rw [hc2]
    have hcol : famCol B k c = (c - 1) / B := by
      unfold famCol
      rw [if_pos hlt]
      rcases hB with rfl | rfl <;> omega
    rw [stored_push_eq B k f g h c ((c - 1) / B) hcol]
    rfl
  · show (c - 1) / B = c / B
    exact hdiv
  · show (if (c - 1) / B = 0 then 0 else B) = (if c / B = 0 then 0 else B)
    rw [hdiv]

theorem mapRange'Glue (st : Nat → Pt) (a m n : Nat) :
    (List.range' a m).map st ++ (List.range' (a + m) n).map st =
      (List.range' a (m + n)).map st := by
  rw [← List.map_append]
  congr 1
  have hr := List.range'_append a m n 1
  rw [one_mul] at hr
  rw [Nat.add_comm n m] at hr
  exact hr

theorem mapRangeGlue (st : Nat → Pt) (a b : Nat) :
    (List.range a).map st ++ (List.range' a b).map st = (List.range (a + b)).map st := by
  rw [List.range_eq_range', List.range_eq_range']
  have h := mapRange'Glue st 0 a b
  rwa [Nat.zero_add] at h

theorem famStep_zero (B k : Nat) (hB : B = 16 ∨ B = 32) (hk : 1 ≤ k) (f g h : Nat → Nat) :
    step (famState B k f g h 0) (famPt B f g h 0) = .ok (famState B k f g h 1) := by
  rw [famState_zero]
  have hne : ¬(passZeroB initState.prev_azimuth (famPt B f g h 0).azimuth = true ∧
      0 < initState.remaining_points.length) := by
    rintro ⟨h1, -⟩
    exact absurd h1 (by simp [passZeroB, initState])
  have hnf : ¬ ((0 : Nat) % B < 0) := by omega
  rw [step_noEmit_noFlush hne hnf, famState_mid B k f g h (le_refl 1)
    (by rcases hB with rfl | rfl <;> omega)]
  have h0 : (1 : Nat) - 1 = 0 := rfl
  refine congrArg Except.ok (asmExt rfl ?_ rfl ?_ rfl ?_ ?_)
  · show ([] : List Pt) = (List.range (((1 - 1) / B) * B)).map (famStored B k f g h)
    rw [h0, Nat.zero_div, Nat.zero_mul, List.range_zero, List.map_nil]
  · show [] ++ [({ famPt B f g h 0 with col_idx := 0 } : Pt)] =
      (List.range' (((1 - 1) / B) * B) (1 - ((1 - 1) / B) * B)).map (famStored B k f g h)
    rw [h0, Nat.zero_div, Nat.zero_mul, List.nil_append]
    have hcol : famCol B k 0 = 0 := by
      unfold famCol
      rw [if_pos (by rcases hB with rfl | rfl <;> omega), Nat.zero_div]
    rw [stored_push_eq B k f g h 0 0 hcol]
    rfl
  · show (0 : Nat) = (1 - 1) / B
    rw [h0, Nat.zero_div]
  · show (0 : Nat) = if (1 - 1) / B = 0 then 0 else B
    rw [h0, Nat.zero_div, if_pos rfl]

theorem famStep_mid_flush (B k : Nat) (hB : B = 16 ∨ B = 32) (hk : 1 ≤ k)
    (f g h : Nat → Nat) {c : Nat} (hc1 : 1 ≤ c) (hlt : c < k * B) (hmod : c % B = 0)
    (hnaz : ¬ f c < f (c - 1)) :
    step (famState B k f g h c) (famPt B f g h c) = .ok (famState B k f g h (c + 1)) := by
  rw [famState_mid B k f g h hc1 (le_of_lt hlt)]
  have hne : ¬(passZeroB (some (f (c - 1))) (f c) = true ∧
      0 < ((List.range (((c - 1) / B) * B)).map (famStored B k f g h)).length) := by
    rintro ⟨h1, -⟩
    exact hnaz (of_decide_eq_true h1)
  have hf : (c % B : Nat) < (c - 1) % B := by
    rcases hB with rfl | rfl <;> omega
  have hA : ((c - 1) % B = 15) ∨ ((c - 1) % B = 31) := by
    rcases hB with rfl | rfl <;> omega
  have hlenchan : ((List.range' (((c - 1) / B) * B) (c - ((c - 1) / B) * B)).map
      (famStored B k f g h)).length = c - ((c - 1) / B) * B := by
    rw [List.length_map, List.length_range']
  have hL : ((List.range' (((c - 1) / B) * B) (c - ((c - 1) / B) * B)).map
      (famStored B k f g h)).length = 16 ∨
      ((List.range' (((c - 1) / B) * B) (c - ((c - 1) / B) * B)).map
      (famStored B k f g h)).length = 32 := by
    rw [hlenchan]
    rcases hB with rfl | rfl <;> omega
  rw [step_noEmit_flush hne hf hA hL, famState_mid B k f g h (by omega)
    (by rcases hB with rfl | rfl <;> omega)]
  simp only [Nat.add_sub_cancel]
  refine congrArg Except.ok (asmExt rfl ?_ rfl ?_ rfl ?_ ?_)
  · show (List.range (((c - 1) / B) * B)).map (famStored B k f g h) ++
        (List.range' (((c - 1) / B) * B) (c - ((c - 1) / B) * B)).map (famStored B k f g h) =
      (List.range ((c / B) * B)).map (famStored B k f g h)
    rw [mapRangeGlue]
    rw [show ((c - 1) / B) * B + (c - ((c - 1) / B) * B) = (c / B) * B from by
      rcases hB with rfl | rfl <;> omega]
  · show [] ++ [({ famPt B f g h c with col_idx := (c - 1) / B + 1 } : Pt)] =
      (List.range' ((c / B) * B) (c + 1 - (c / B) * B)).map (famStored B k f g h)
    rw [List.nil_append]
    have hcB : (c / B) * B = c := by rcases hB with rfl | rfl <;> omega
    have hl1 : c + 1 - (c / B) * B = 1 := by rcases hB with rfl | rfl <;> omega
    rw [hl1, hcB]
    have hcol : famCol B k c = (c - 1) / B + 1 := by
      unfold famCol
      rw [if_pos hlt]
      rcases hB with rfl | rfl <;> omega
    rw [stored_push_eq B k f g h c ((c - 1) / B + 1) hcol]
    rfl
  · show (c - 1) / B + 1 = c / B
    rcases hB with rfl | rfl <;> omega
  · show (c - 1) % B + 1 = if c / B = 0 then 0 else B
    rw [if_neg (by rcases hB with rfl | rfl <;> omega)]
    rcases hB with rfl | rfl <;> omega

theorem famStep_drop (B k : Nat) (hB : B = 16 ∨ B = 32) (hk2 : 2 ≤ k)
    (f g h : Nat → Nat) (hdrop : f (k * B) < f (k * B - 1)) :
    step (famState B k f g h (k * B)) (famPt B f g h (k * B)) =
      .ok (famState B k f g h (k * B + 1)) := by
  rw [famState_mid B k f g h (by rcases hB with rfl | rfl <;> omega) (le_refl _)]
  have he : passZeroB (some (f (k * B - 1))) (f (k * B)) = true ∧
      0 < ((List.range (((k * B - 1) / B) * B)).map (famStored B k f g h)).length := by
    refine ⟨decide_eq_true hdrop, ?_⟩
    rw [List.length_map, List.length_range]
    rcases hB with rfl | rfl <;> omega
  have hb : (if (k * B - 1) / B = 0 then 0 else B) ≠ 0 := by
    rw [if_neg (by rcases hB with rfl | rfl <;> omega)]
    rcases hB with rfl | rfl <;> omega
  have hf : (k * B) % B < (k * B - 1) % B := by
    rcases hB with rfl | rfl <;> omega
  have hA : ((k * B - 1) % B = 15) ∨ ((k * B - 1) % B = 31) := by
    rcases hB with rfl | rfl <;> omega
  have hL : ((List.range' (((k * B - 1) / B) * B) (k * B - ((k * B - 1) / B) * B)).map
      (famStored B k f g h)).length = 16 ∨
      ((List.range' (((k * B - 1) / B) * B) (k * B - ((k * B - 1) / B) * B)).map
      (famStored B k f g h)).length = 32 := by
    rw [List.length_map, List.length_range']
    rcases hB with rfl | rfl <;> omega
  rw [step_emit_flush he hb hf hA hL, famState_post B k f g h (by omega)]
  simp only [Nat.add_sub_cancel]
  refine congrArg Except.ok (asmExt ?_ ?_ rfl ?_ rfl ?_ ?_)
  · show some (⟨sortChunks (if (k * B - 1) / B = 0 then 0 else B)
        ((List.range (((k * B - 1) / B) * B)).map (famStored B k f g h)),
        (if (k * B - 1) / B = 0 then 0 else B), (k * B - 1) / B⟩ : PcdFrame) =
      if 2 ≤ k then some (famFrame B k f g h) else none
    rw [if_pos hk2]
    unfold famFrame
    rw [show (k * B - 1) / B = k - 1 from by rcases hB with rfl | rfl <;> omega]
    rw [if_neg (by omega)]
  · show (List.range' (((k * B - 1) / B) * B) (k * B - ((k * B - 1) / B) * B)).map
        (famStored B k f g h) =
      (List.range' ((k - 1) * B) (B + ((k * B - k * B) / B) * B)).map (famStored B k f g h)
    exact mapRange'_congr _ (by rcases hB with rfl | rfl <;> omega)
      (by rcases hB with rfl | rfl <;> omega)
  · show [] ++ [({ famPt B f g h (k * B) with col_idx := 1 } : Pt)] =
      (List.range' (k * B + ((k * B - k * B) / B) * B)
        (k * B + 1 - k * B - ((k * B - k * B) / B) * B)).map (famStored B k f g h)
    rw [List.nil_append,
      show k * B + ((k * B - k * B) / B) * B = k * B from by rcases hB with rfl | rfl <;> omega,
      show k * B + 1 - k * B - ((k * B - k * B) / B) * B = 1 from by
        rcases hB with rfl | rfl <;> omega]
    have hcol : famCol B k (k * B) = 1 := by
      unfold famCol
      rw [if_neg (by omega)]
      rcases hB with rfl | rfl <;> omega
    rw [stored_push_eq B k f g h (k * B) 1 hcol]
    rfl
  · show 1 = 1 + (k * B - k * B) / B
    rcases hB with rfl | rfl <;> omega
  · show (k * B - 1) % B + 1 = B
    rcases hB with rfl | rfl <;> omega

theorem famStep_drop_k1 (B : Nat) (hB : B = 16 ∨ B = 32) (f g h : Nat → Nat) :
    step (famState B 1 f g h (1 * B)) (famPt B f g h (1 * B)) =
      .ok (famState B 1 f g h (1 * B + 1)) := by
  rw [famState_mid B 1 f g h (by rcases hB with rfl | rfl <;> omega) (le_refl _)]
  have hne : ¬(passZeroB (some (f (1 * B - 1))) (f (1 * B)) = true ∧
      0 < ((List.range (((1 * B - 1) / B) * B)).map (famStored B 1 f g h)).length) := by
    rintro ⟨-, h2⟩
    rw [List.length_map, List.length_range] at h2
    rcases hB with rfl | rfl <;> omega
  have hf : (1 * B) % B < (1 * B - 1) % B := by
    rcases hB with rfl | rfl <;> omega
  have hA : ((1 * B - 1) % B = 15) ∨ ((1 * B - 1) % B = 31) := by
    rcases hB with rfl | rfl <;> omega
  have hL : ((List.range' (((1 * B - 1) / B) * B) (1 * B - ((1 * B - 1) / B) * B)).map
      (famStored B 1 f g h)).length = 16 ∨
      ((List.range' (((1 * B - 1) / B) * B) (1 * B - ((1 * B - 1) / B) * B)).map
      (famStored B 1 f g h)).length = 32 := by
    rw [List.length_map, List.length_range']
    rcases hB with rfl | rfl <;> omega
  rw [step_noEmit_flush hne hf hA hL, famState_post B 1 f g h (by omega)]
  simp only [Nat.add_sub_cancel]
  refine congrArg Except.ok (asmExt ?_ ?_ rfl ?_ rfl ?_ ?_)
  · show (none : Option PcdFrame) = if 2 ≤ 1 then some (famFrame B 1 f g h) else none
    rw [if_neg (by omega)]
  · show (List.range (((1 * B - 1) / B) * B)).map (famStored B 1 f g h) ++
        (List.range' (((1 * B - 1) / B) * B) (1 * B - ((1 * B - 1) / B) * B)).map
          (famStored B 1 f g h) =
      (List.range' ((1 - 1) * B) (B + ((1 * B - 1 * B) / B) * B)).map (famStored B 1 f g h)
    rw [mapRangeGlue, List.range_eq_range']
    exact mapRange'_congr _ (by rcases hB with rfl | rfl <;> omega)
      (by rcases hB with rfl | rfl <;> omega)
  · show [] ++ [({ famPt B f g h (1 * B) with col_idx := (1 * B - 1) / B + 1 } : Pt)] =
      (List.range' (1 * B + ((1 * B - 1 * B) / B) * B)
        (1 * B + 1 - 1 * B - ((1 * B - 1 * B) / B) * B)).map (famStored B 1 f g h)
    rw [List.nil_append,
      show 1 * B + ((1 * B - 1 * B) / B) * B = 1 * B from by rcases hB with rfl | rfl <;> omega,
      show 1 * B + 1 - 1 * B - ((1 * B - 1 * B) / B) * B = 1 from by
        rcases hB with rfl | rfl <;> omega]
    have hcol : famCol B 1 (1 * B) = (1 * B - 1) / B + 1 := by
      unfold famCol
      rw [if_neg (by omega)]
      rcases hB with rfl | rfl <;> omega
    rw [stored_push_eq B 1 f g h (1 * B) ((1 * B - 1) / B + 1) hcol]
    rfl
  · show (1 * B - 1) / B + 1 = 1 + (1 * B - 1 * B) / B
    rcases hB with rfl | rfl <;> omega
  · show (1 * B - 1) % B + 1 = B
    rcases hB with rfl | rfl <;> omega

theorem famStep_post_flush (B k : Nat) (hB : B = 16 ∨ B = 32) (hk : 1 ≤ k)
    (f g h : Nat → Nat) {c : Nat} (hgt : k * B < c) (hmodp : (c - k * B) % B = 0)
    (hnaz : ¬ f c < f (c - 1)) :
    step (famState B k f g h c) (famPt B f g h c) = .ok (famState B k f g h (c + 1)) := by
  rw [famState_post B k f g h hgt]
  have hne : ¬(passZeroB (some (f (c - 1))) (f c) = true ∧
      0 < ((List.range' ((k - 1) * B) (B + ((c - 1 - k * B) / B) * B)).map
        (famStored B k f g h)).length) := by
    rintro ⟨h1, -⟩
    exact hnaz (of_decide_eq_true h1)
  have hf : (c % B : Nat) < (c - 1) % B := by
    rcases hB with rfl | rfl <;> omega
  have hA : ((c - 1) % B = 15) ∨ ((c - 1) % B = 31) := by
    rcases hB with rfl | rfl <;> omega
  have hL : ((List.range' (k * B + ((c - 1 - k * B) / B) * B)
      (c - k * B - ((c - 1 - k * B) / B) * B)).map (famStored B k f g h)).length = 16 ∨
      ((List.range' (k * B + ((c - 1 - k * B) / B) * B)
      (c - k * B - ((c - 1 - k * B) / B) * B)).map (famStored B k f g h)).length = 32 := by
    rw [List.length_map, List.length_range']
    rcases hB with rfl | rfl <;> omega
  rw [step_noEmit_flush hne hf hA hL, famState_post B k f g h (by omega)]
  simp only [Nat.add_sub_cancel]
  refine congrArg Except.ok (asmExt rfl ?_ rfl ?_ rfl ?_ ?_)
  · show (List.range' ((k - 1) * B) (B + ((c - 1 - k * B) / B) * B)).map (famStored B k f g h)
        ++ (List.range' (k * B + ((c - 1 - k * B) / B) * B)
          (c - k * B - ((c - 1 - k * B) / B) * B)).map (famStored B k f g h) =
      (List.range' ((k - 1) * B) (B + ((c - k * B) / B) * B)).map (famStored B k f g h)
    rw [mapRange'_congr (famStored B k f g h)
      (show k * B + ((c - 1 - k * B) / B) * B =
        (k - 1) * B + (B + ((c - 1 - k * B) / B) * B) from by
          rcases hB with rfl | rfl <;> omega) rfl,
      mapRange'Glue]
    exact mapRange'_congr _ rfl (by rcases hB with rfl | rfl <;> omega)
  · show [] ++ [({ famPt B f g h c with col_idx := 1 + (c - 1 - k * B) / B + 1 } : Pt)] =
      (List.range' (k * B + ((c - k * B) / B) * B) (c + 1 - k * B - ((c - k * B) / B) * B)).map
        (famStored B k f g h)
    rw [List.nil_append,
      show k * B + ((c - k * B) / B) * B = c from by rcases hB with rfl | rfl <;> omega,
      show c + 1 - k * B - ((c - k * B) / B) * B = 1 from by rcases hB with rfl | rfl <;> omega]
    have hcol : famCol B k c = 1 + (c - 1 - k * B) / B + 1 := by
      unfold famCol
      rw [if_neg (by omega)]
      rcases hB with rfl | rfl <;> omega
    rw [stored_push_eq B k f g h c (1 + (c - 1 - k * B) / B + 1) hcol]
    rfl
  · show 1 + (c - 1 - k * B) / B + 1 = 1 + (c - k * B) / B
    rcases hB with rfl | rfl <;> omega
  · show (c - 1) % B + 1 = B
    rcases hB with rfl | rfl <;> omega

theorem famStep_post_push (B k : Nat) (hB : B = 16 ∨ B = 32) (hk : 1 ≤ k)
    (f g h : Nat → Nat) {c : Nat} (hgt : k * B < c) (hmodp : (c - k * B) % B ≠ 0)
    (hnaz : ¬ f c < f (c - 1)) :
    step (famState B k f g h c) (famPt B f g h c) = .ok (famState B k f g h (c + 1)) := by
  rw [famState_post B k f g h hgt]
  have hne : ¬(passZeroB (some (f (c - 1))) (f c) = true ∧
      0 < ((List.range' ((k - 1) * B) (B + ((c - 1 - k * B) / B) * B)).map
        (famStored B k f g h)).length) := by
    rintro ⟨h1, -⟩
    exact hnaz (of_decide_eq_true h1)
  have hnf : ¬ ((c % B : Nat) < (c - 1) % B) := by
    rcases hB with rfl | rfl <;> omega
  rw [step_noEmit_noFlush hne hnf, famState_post B k f g h (by omega)]
  simp only [Nat.add_sub_cancel]
  refine congrArg Except.ok (asmExt rfl ?_ rfl ?_ rfl ?_ rfl)
  · show (List.range' ((k - 1) * B) (B + ((c - 1 - k * B) / B) * B)).map (famStored B k f g h) =
      (List.range' ((k - 1) * B) (B + ((c - k * B) / B) * B)).map (famStored B k f g h)
    exact mapRange'_congr _ rfl (by rcases hB with rfl | rfl <;> omega)
  · show (List.range' (k * B + ((c - 1 - k * B) / B) * B)
        (c - k * B - ((c - 1 - k * B) / B) * B)).map (famStored B k f g h)
        ++ [({ famPt B f g h c with col_idx := 1 + (c - 1 - k * B) / B } : Pt)] =
      (List.range' (k * B + ((c - k * B) / B) * B) (c + 1 - k * B - ((c - k * B) / B) * B)).map
        (famStored B k f g h)
    rw [show k * B + ((c - k * B) / B) * B = k * B + ((c - 1 - k * B) / B) * B from by
        rcases hB with rfl | rfl <;> omega,
      show c + 1 - k * B - ((c - k * B) / B) * B =
        (c - k * B - ((c - 1 - k * B) / B) * B) + 1 from by rcases hB with rfl | rfl <;> omega,
      List.range'_1_concat, List.map_append,
      show k * B + ((c - 1 - k * B) / B) * B + (c - k * B - ((c - 1 - k * B) / B) * B) = c from by
        rcases hB with rfl | rfl <;> omega]
    have hcol : famCol B k c = 1 + (c - 1 - k * B) / B := by
      unfold famCol
      rw [if_neg (by omega)]
      rcases hB with rfl | rfl <;> omega
    rw [stored_push_eq B k f g h c (1 + (c - 1 - k * B) / B) hcol]
    rfl
  · show 1 + (c - 1 - k * B) / B = 1 + (c - k * B) / B
    rcases hB with rfl | rfl <;> omega

/-- Master characterization: on the one-revolution family (azimuths
adjacent-increasing, one drop at the first point of column `k`,
adjacent-increasing afterwards), the assembler reaches exactly the state
`famState` after any prefix. -/
theorem famRun (B k : Nat) (hB : B = 16 ∨ B = 32) (hk : 1 ≤ k) (f g h : Nat → Nat) :
    ∀ c : Nat,
    (∀ i, i + 1 < k * B → i + 1 < c → f i < f (i + 1)) →
    (k * B < c → f (k * B) < f (k * B - 1)) →
    (∀ j, k * B + j + 1 < c → f (k * B + j) < f (k * B + j + 1)) →
    runPoints initState (famInput B c f g h) = .ok (famState B k f g h c) := by
  intro c
  induction c with
  | zero =>
    intro _ _ _
    rw [famState_zero]
    rfl
  | succ c ih =>
    intro hrev hdrop hnext
    have hrun := ih (fun i h1 h2 => hrev i h1 (by omega)) (fun hlt => hdrop (by omega))
      (fun j hj => hnext j (by omega))
    have hsplit : famInput B (c + 1) f g h = famInput B c f g h ++ [famPt B f g h c] := by
      unfold famInput
      rw [List.range_succ, List.map_append]
      rfl
    rw [hsplit, runPoints_append, hrun, ebind_ok, runPoints_single]
    rcases Nat.lt_trichotomy c (k * B) with hlt | heq | hgt
    · rcases Nat.eq_zero_or_pos c with rfl | hc1
      · exact famStep_zero B k hB hk f g h
      · have hnaz : ¬ f c < f (c - 1) := by
          have hmono := hrev (c - 1) (by omega) (by omega)
          rw [show c - 1 + 1 = c from by omega] at hmono
          omega
        by_cases hmod : c % B = 0
        · exact famStep_mid_flush B k hB hk f g h hc1 hlt hmod hnaz
        · exact famStep_mid_push B k hB hk f g h hc1 hlt hmod hnaz
    · subst heq
      rcases Nat.lt_or_ge k 2 with hk1 | hk2
      · have hke : k = 1 := by omega
        subst hke
        exact famStep_drop_k1 B hB f g h
      · exact famStep_drop B k hB hk2 f g h (hdrop (by omega))
    · have hnaz : ¬ f c < f (c - 1) := by
        have hmono := hnext (c - 1 - k * B) (by omega)
        rw [show k * B + (c - 1 - k * B) = c - 1 from by omega] at hmono
        rw [show c - 1 + 1 = c from by omega] at hmono
        omega
      by_cases hmodp : (c - k * B) % B = 0
      · exact famStep_post_flush B k hB hk f g h hgt hmodp hnaz
      · exact famStep_post_push B k hB hk f g h hgt hmodp hnaz

theorem famInput_take (B n c : Nat) (f g h : Nat → Nat) (hc : c ≤ n) :
    (famInput B n f g h).take c = famInput B c f g h := by
  unfold famInput
  rw [← List.map_take, List.take_range, Nat.min_eq_left hc]

theorem famInput_split (B n c : Nat) (f g h : Nat → Nat) (hc : c ≤ n) :
    famInput B n f g h =
      famInput B c f g h ++ (List.range' c (n - c)).map (famPt B f g h) := by
  unfold famInput
  rw [← List.map_append]
  congr 1
  rw [List.range_eq_range', List.range_eq_range']
  have hr := List.range'_append 0 c (n - c) 1
  rw [one_mul, Nat.zero_add] at hr
  rw [show n - c + c = n from by omega] at hr
  exact hr.symm

theorem famInput_drop (B n c : Nat) (f g h : Nat → Nat) (hc : c ≤ n) :
    (famInput B n f g h).drop c = (List.range' c (n - c)).map (famPt B f g h) := by
  rw [famInput_split B n c f g h hc, List.drop_left']
  unfold famInput
  rw [List.length_map, List.length_range]

theorem famLeftover_mid (B k : Nat) (hB : B = 16 ∨ B = 32) (f g h : Nat → Nat) {c : Nat}
    (hc : c ≤ k * B) :
    (famState B k f g h c).remaining_points ++ (famState B k f g h c).remaining_channel =
      (List.range c).map (famStored B k f g h) := by
  rcases Nat.eq_zero_or_pos c with rfl | hc1
  · rw [famState_zero]
    rfl
  · rw [famState_mid B k f g h hc1 hc]
    show (List.range (((c - 1) / B) * B)).map (famStored B k f g h) ++
        (List.range' (((c - 1) / B) * B) (c - ((c - 1) / B) * B)).map (famStored B k f g h) = _
    rw [mapRangeGlue]
    congr 2
    rcases hB with rfl | rfl <;> omega

theorem famLeftover_post (B k : Nat) (hB : B = 16 ∨ B = 32) (hk : 1 ≤ k)
    (f g h : Nat → Nat) {c : Nat} (hc : k * B < c) :
    (famState B k f g h c).remaining_points ++ (famState B k f g h c).remaining_channel =
      (List.range' ((k - 1) * B) (c - (k - 1) * B)).map (famStored B k f g h) := by
  rw [famState_post B k f g h hc]
  show (List.range' ((k - 1) * B) (B + ((c - 1 - k * B) / B) * B)).map (famStored B k f g h) ++
      (List.range' (k * B + ((c - 1 - k * B) / B) * B)
        (c - k * B - ((c - 1 - k * B) / B) * B)).map (famStored B k f g h) = _
  rw [mapRange'_congr (famStored B k f g h)
    (show k * B + ((c - 1 - k * B) / B) * B =
      (k - 1) * B + (B + ((c - 1 - k * B) / B) * B) from by
        rcases hB with rfl | rfl <;> omega) rfl,
    mapRange'Glue]
  exact mapRange'_congr _ rfl (by rcases hB with rfl | rfl <;> omega)

/-- `points_to_frames` on a family prefix, via the master lemma. -/
theorem famPtf (B k : Nat) (hB : B = 16 ∨ B = 32) (hk : 1 ≤ k) (f g h : Nat → Nat)
    (c : Nat)
    (hrev : ∀ i, i + 1 < k * B → i + 1 < c → f i < f (i + 1))
    (hdrop : k * B < c → f (k * B) < f (k * B - 1))
    (hnext : ∀ j, k * B + j + 1 < c → f (k * B + j) < f (k * B + j + 1)) :
    points_to_frames (famInput B c f g h) =
      .ok ((famState B k f g h c).frames,
        (famState B k f g h c).remaining_points ++ (famState B k f g h c).remaining_channel) := by
  unfold points_to_frames
  rw [famRun B k hB hk f g h c hrev hdrop hnext]

/-- C1 (amended): on a wraparound input (azimuths strictly increasing through
`k` well-formed `B`-beam columns, dropping at the first point of column `k`,
increasing afterwards), no prefix ending at or before the drop emits a frame,
every prefix past the drop emits exactly the frame `famFrame`, and that
frame holds `(k - 1) * B` points — the points preceding the drop minus the
revolution's final column, which is carried into the next frame. -/
theorem C1_frame_at_wraparound (B k m : Nat) (f g h : Nat → Nat)
    (hB : B = 16 ∨ B = 32) (hk : 2 ≤ k) (hm : 1 ≤ m)
    (hrev : ∀ i, i < k * B - 1 → f i < f (i + 1))
    (hdrop : f (k * B) < f (k * B - 1))
    (hnext : ∀ j, j < m - 1 → f (k * B + j) < f (k * B + j + 1)) :
    (∀ c, c ≤ k * B →
      framePart (points_to_frames ((famInput B (k * B + m) f g h).take c)) = .ok none) ∧
    (∀ c, k * B < c → c ≤ k * B + m →
      framePart (points_to_frames ((famInput B (k * B + m) f g h).take c)) =
        .ok (some (famFrame B k f g h))) ∧
    (famFrame B k f g h).data.length = (k - 1) * B := by
  have hk1 : 1 ≤ k := by omega
  refine ⟨?_, ?_, ?_⟩
  · intro c hc
    rw [famInput_take B (k * B + m) c f g h (by omega)]
    rw [show framePart (points_to_frames (famInput B c f g h)) =
        Except.ok (famState B k f g h c).frames from by
      rw [famPtf B k hB hk1 f g h c (fun i h1 h2 => hrev i (by omega))
        (fun hlt => absurd hlt (by omega)) (fun j hj => absurd hj (by omega))]
      rfl]
    rcases Nat.eq_zero_or_pos c with rfl | hc1
    · rw [famState_zero]
      rfl
    · rw [famState_mid B k f g h hc1 hc]
  · intro c hc1 hc2
    rw [famInput_take B (k * B + m) c f g h hc2]
    rw [show framePart (points_to_frames (famInput B c f g h)) =
        Except.ok (famState B k f g h c).frames from by
      rw [famPtf B k hB hk1 f g h c (fun i h1 h2 => hrev i (by omega))
        (fun _ => hdrop) (fun j hj => hnext j (by omega))]
      rfl]
    rw [famState_post B k f g h hc1]
    show Except.ok (if 2 ≤ k then some (famFrame B k f g h) else none) = _
    rw [if_pos hk]
  · show (sortChunks B _).length = (k - 1) * B
    rw [sortChunks_length, List.length_map, List.length_range]

theorem C1_frame_at_wraparound_witness :
    (∀ i, i < 2 * 16 - 1 → azWrapOnce i < azWrapOnce (i + 1)) ∧
    azWrapOnce (2 * 16) < azWrapOnce (2 * 16 - 1) ∧
    framePart (points_to_frames ((famInput 16 (2 * 16 + 1) azWrapOnce (fun i => i % 16)
      (fun i => i)).take 32)) = .ok none ∧
    framePart (points_to_frames ((famInput 16 (2 * 16 + 1) azWrapOnce (fun i => i % 16)
      (fun i => i)).take 33)) =
      .ok (some (famFrame 16 2 azWrapOnce (fun i => i % 16) (fun i => i))) ∧
    (famFrame 16 2 azWrapOnce (fun i => i % 16) (fun i => i)).data.length = (2 - 1) * 16 :=
  have hmain := C1_frame_at_wraparound 16 2 1 azWrapOnce (fun i => i % 16) (fun i => i)
    (Or.inl rfl) (by omega) (by omega) (by decide) (by decide) (by decide)
  ⟨by decide, by decide, hmain.1 32 (by omega), hmain.2.1 33 (by omega) (by omega), hmain.2.2⟩

theorem runPoints_cons_ok {s : AsmState} {p : Pt} {s1 : AsmState}
    (hst : step s p = .ok s1) (rest : List Pt) :
    runPoints s (p :: rest) = runPoints s1 rest := by
  simp only [runPoints, hst]

theorem runPoints_calm : ∀ (q : List Pt) (s : AsmState) (a : Nat),
    s.prev_azimuth = some a → calmFrom s.prev_laser_id a q = true →
    runPoints s q = .ok (quietExtend s q) := by
  intro q
  induction q with
  | nil => intro s a _ _; rfl
  | cons p rest ih =>
    intro s a ha hcalm
    simp only [calmFrom, Bool.and_eq_true, decide_eq_true_eq] at hcalm
    obtain ⟨⟨h1, h2⟩, h3⟩ := hcalm
    have hne : ¬(passZeroB s.prev_azimuth p.azimuth = true ∧
        0 < s.remaining_points.length) := by
      rintro ⟨hz, -⟩
      rw [ha] at hz
      exact absurd (of_decide_eq_true hz) (by omega)
    have hnf : ¬ p.laser_id < s.prev_laser_id := by omega
    rw [runPoints_cons_ok (step_noEmit_noFlush hne hnf)]
    exact ih (pushPoint s p) p.azimuth rfl (by
      show calmFrom p.laser_id p.azimuth rest = true
      exact h3)

theorem calmFrom_famSeg (B : Nat) (f g h : Nat → Nat) : ∀ (len s pl pa : Nat),
    (0 < len → pl ≤ s % B) →
    (0 < len → pa ≤ f s) →
    (∀ j, j + 1 < len → (s + j) % B ≤ (s + j + 1) % B) →
    (∀ j, j + 1 < len → f (s + j) ≤ f (s + j + 1)) →
    calmFrom pl pa ((List.range' s len).map (famPt B f g h)) = true := by
  intro len
  induction len with
  | zero => intro s pl pa _ _ _ _; rfl
  | succ L ih =>
    intro s pl pa h1 h2 h3 h4
    show calmFrom pl pa (famPt B f g h s :: (List.range' (s + 1) L).map (famPt B f g h)) = true
    simp only [calmFrom, Bool.and_eq_true, decide_eq_true_eq]
    refine ⟨⟨h1 (by omega), h2 (by omega)⟩, ?_⟩
    show calmFrom (s % B) (f s) ((List.range' (s + 1) L).map (famPt B f g h)) = true
    refine ih (s + 1) (s % B) (f s) ?_ ?_ ?_ ?_
    · intro hL
      have := h3 0 (by omega)
      rw [Nat.add_zero] at this
      exact this
    · intro hL
      have := h4 0 (by omega)
      rw [Nat.add_zero] at this
      exact this
    · intro j hj
      have := h3 (j + 1) (by omega)
      rw [show s + (j + 1) = s + 1 + j from by omega] at this
      exact this
    · intro j hj
      have := h4 (j + 1) (by omega)
      rw [show s + (j + 1) = s + 1 + j from by omega] at this
      exact this

theorem runPoints_calm2 (s : AsmState) (q : List Pt) (a pl : Nat)
    (ha : s.prev_azimuth = some a) (hpl : s.prev_laser_id = pl)
    (hc : calmFrom pl a q = true) : runPoints s q = .ok (quietExtend s q) := by
  refine runPoints_calm q s a ha ?_
  rw [hpl]
  exact hc

theorem framePart_points (pts : List Pt) (s : AsmState)
    (hr : runPoints initState pts = .ok s) :
    framePart (points_to_frames pts) = .ok s.frames := by
  unfold points_to_frames framePart
  rw [hr]

/-- C3 (amended): every call returns at most one frame — the `frames` slot is
a single `Option` — and when two revolutions complete within one call, the
frame returned is the one completed last.  A call cut right after the first
drop would return the first revolution's frame `famFrame B k1`; the full call
instead returns the frame of the second revolution (its `k2` columns,
beginning with the first revolution's leaked final column), and the first
frame is discarded. -/
theorem C3_latest_frame_returned (B k1 k2 m2 : Nat) (f g h : Nat → Nat)
    (hB : B = 16 ∨ B = 32) (hk1 : 2 ≤ k1) (hk2 : 1 ≤ k2) (hm2 : 1 ≤ m2) (hm2B : m2 ≤ B)
    (hrev1 : ∀ i, i < k1 * B - 1 → f i < f (i + 1))
    (hdrop1 : f (k1 * B) < f (k1 * B - 1))
    (hrev2 : ∀ j, j < k2 * B - 1 → f (k1 * B + j) < f (k1 * B + j + 1))
    (hdrop2 : f ((k1 + k2) * B) < f ((k1 + k2) * B - 1))
    (htail : ∀ j, j < m2 - 1 → f ((k1 + k2) * B + j) < f ((k1 + k2) * B + j + 1)) :
    framePart (points_to_frames ((famInput B ((k1 + k2) * B + m2) f g h).take (k1 * B + 1))) =
      .ok (some (famFrame B k1 f g h)) ∧
    framePart (points_to_frames (famInput B ((k1 + k2) * B + m2) f g h)) =
      .ok (some ⟨sortChunks B ((List.range' ((k1 - 1) * B) (k2 * B)).map
        (famStored B k1 f g h)), B, k2⟩) := by
  have hk1' : 1 ≤ k1 := by omega
  constructor
  · rw [famInput_take B ((k1 + k2) * B + m2) (k1 * B + 1) f g h
      (by rcases hB with rfl | rfl <;> omega)]
    rw [show framePart (points_to_frames (famInput B (k1 * B + 1) f g h)) =
        Except.ok (famState B k1 f g h (k1 * B + 1)).frames from by
      rw [famPtf B k1 hB hk1' f g h (k1 * B + 1) (fun i h1 h2 => hrev1 i (by omega))
        (fun _ => hdrop1) (fun j hj => absurd hj (by omega))]
      rfl]
    rw [famState_post B k1 f g h (show k1 * B < k1 * B + 1 from by omega)]
    show Except.ok (if 2 ≤ k1 then some (famFrame B k1 f g h) else none) = _
    rw [if_pos hk1]
  · have hrunD : runPoints initState (famInput B ((k1 + k2) * B) f g h) =
        .ok (famState B k1 f g h ((k1 + k2) * B)) := by
      refine famRun B k1 hB hk1' f g h ((k1 + k2) * B) ?_ ?_ ?_
      · intro i h1 _
        exact hrev1 i (by omega)
      · intro _
        exact hdrop1
      · intro j hj
        exact hrev2 j (by rcases hB with rfl | rfl <;> omega)
    have hclean : famState B k1 f g h ((k1 + k2) * B) =
        { frames := some (famFrame B k1 f g h)
          remaining_points := (List.range' ((k1 - 1) * B) (k2 * B)).map (famStored B k1 f g h)
          prev_azimuth := some (f ((k1 + k2) * B - 1))
          remaining_channel :=
            (List.range' ((k1 + k2 - 1) * B) B).map (famStored B k1 f g h)
          prev_laser_id := B - 1
          col_idx_cnt := k2
          beam_num := B } := by
      rw [famState_post B k1 f g h
        (show k1 * B < (k1 + k2) * B from by rcases hB with rfl | rfl <;> omega)]
      refine asmExt ?_ ?_ rfl ?_ ?_ ?_ rfl
      · show (if 2 ≤ k1 then some (famFrame B k1 f g h) else none) = some (famFrame B k1 f g h)
        rw [if_pos hk1]
      · exact mapRange'_congr _ rfl (by rcases hB with rfl | rfl <;> omega)
      · exact mapRange'_congr _ (by rcases hB with rfl | rfl <;> omega)
          (by rcases hB with rfl | rfl <;> omega)
      · show ((k1 + k2) * B - 1) % B = B - 1
        rcases hB with rfl | rfl <;> omega
      · show 1 + ((k1 + k2) * B - 1 - k1 * B) / B = k2
        rcases hB with rfl | rfl <;> omega
    obtain ⟨σ', hstep, hfr, hσa, hσl⟩ :
        ∃ σ', step (famState B k1 f g h ((k1 + k2) * B)) (famPt B f g h ((k1 + k2) * B)) =
            .ok σ' ∧
          σ'.frames = some ⟨sortChunks B ((List.range' ((k1 - 1) * B) (k2 * B)).map
            (famStored B k1 f g h)), B, k2⟩ ∧
          σ'.prev_azimuth = some (f ((k1 + k2) * B)) ∧
          σ'.prev_laser_id = ((k1 + k2) * B) % B := by
      rw [hclean]
      refine ⟨_, step_emit_flush ⟨?_, ?_⟩ ?_ ?_ ?_ ?_, rfl, rfl, rfl⟩
      · exact decide_eq_true hdrop2
      · show 0 < ((List.range' ((k1 - 1) * B) (k2 * B)).map (famStored B k1 f g h)).length
        rw [List.length_map, List.length_range']
        rcases hB with rfl | rfl <;> omega
      · show B ≠ 0
        rcases hB with rfl | rfl <;> omega
      · show ((k1 + k2) * B) % B < B - 1
        rcases hB with rfl | rfl <;> omega
      · show B - 1 = 15 ∨ B - 1 = 31
        rcases hB with rfl | rfl
        · exact Or.inl rfl
        · exact Or.inr rfl
      · show ((List.range' ((k1 + k2 - 1) * B) B).map (famStored B k1 f g h)).length = 16 ∨
          ((List.range' ((k1 + k2 - 1) * B) B).map (famStored B k1 f g h)).length = 32
        rw [List.length_map, List.length_range']
        rcases hB with rfl | rfl
        · exact Or.inl rfl
        · exact Or.inr rfl
    have hcalm : calmFrom (((k1 + k2) * B) % B) (f ((k1 + k2) * B))
        ((List.range' ((k1 + k2) * B + 1) (m2 - 1)).map (famPt B f g h)) = true := by
      refine calmFrom_famSeg B f g h (m2 - 1) ((k1 + k2) * B + 1) _ _ ?_ ?_ ?_ ?_
      · intro _
        rcases hB with rfl | rfl <;> omega
      · intro hl
        exact le_of_lt (htail 0 (by omega))
      · intro j hj
        rcases hB with rfl | rfl <;> omega
      · intro j hj
        have ht := htail (j + 1) (by omega)
        rw [show (k1 + k2) * B + (j + 1) = (k1 + k2) * B + 1 + j from by omega] at ht
        exact le_of_lt ht
    have hsegsplit : (List.range' ((k1 + k2) * B) m2).map (famPt B f g h) =
        famPt B f g h ((k1 + k2) * B) ::
          (List.range' ((k1 + k2) * B + 1) (m2 - 1)).map (famPt B f g h) := by
      rw [show m2 = m2 - 1 + 1 from by omega]
      rfl
    have hrunAll : runPoints initState (famInput B ((k1 + k2) * B + m2) f g h) =
        .ok (quietExtend σ'
          ((List.range' ((k1 + k2) * B + 1) (m2 - 1)).map (famPt B f g h))) := by
      rw [famInput_split B ((k1 + k2) * B + m2) ((k1 + k2) * B) f g h (by omega),
        show (k1 + k2) * B + m2 - (k1 + k2) * B = m2 from by omega,
        runPoints_append, hrunD, ebind_ok, hsegsplit, runPoints_cons_ok hstep]
      exact runPoints_calm2 σ' _ (f ((k1 + k2) * B)) (((k1 + k2) * B) % B) hσa hσl hcalm
    calc framePart (points_to_frames (famInput B ((k1 + k2) * B + m2) f g h))
        = .ok (quietExtend σ'
            ((List.range' ((k1 + k2) * B + 1) (m2 - 1)).map (famPt B f g h))).frames :=
          framePart_points _ _ hrunAll
      _ = .ok σ'.frames := by rw [quietExtend_frames]
      _ = .ok (some ⟨sortChunks B ((List.range' ((k1 - 1) * B) (k2 * B)).map
          (famStored B k1 f g h)), B, k2⟩) := by rw [hfr]

theorem C3_latest_frame_returned_witness :
    framePart (points_to_frames ((famInput 16 80 azTwoRevs (fun i => i % 16)
      (fun i => i)).take 33)) =
      .ok (some (famFrame 16 2 azTwoRevs (fun i => i % 16) (fun i => i))) ∧
    framePart (points_to_frames (famInput 16 80 azTwoRevs (fun i => i % 16) (fun i => i))) =
      .ok (some ⟨sortChunks 16 ((List.range' 16 32).map
        (famStored 16 2 azTwoRevs (fun i => i % 16) (fun i => i))), 16, 2⟩) :=
  C3_latest_frame_returned 16 2 2 16 azTwoRevs (fun i => i % 16) (fun i => i)
    (Or.inl rfl) (by omega) (by omega) (by omega) (by omega)
    (by decide) (by decide) (by decide) (by decide) (by decide)

theorem step_colIrrel (s : AsmState) (p q : Pt) (hpq : eraseColIdx p = eraseColIdx q) :
    step s p = step s q := by
  cases p with
  | mk pa pl pr pc ps =>
    cases q with
    | mk qa ql qr qc qs =>
      simp only [eraseColIdx, Pt.mk.injEq] at hpq
      obtain ⟨h1, h2, h3, -, h5⟩ := hpq
      subst h1
      subst h2
      subst h3
      subst h5
      rfl

theorem runPoints_colIrrel : ∀ (xs ys : List Pt) (s : AsmState),
    xs.map eraseColIdx = ys.map eraseColIdx → runPoints s xs = runPoints s ys := by
  intro xs
  induction xs with
  | nil =>
    intro ys s hm
    cases ys with
    | nil => rfl
    | cons y ys => exact absurd hm (by simp)
  | cons x xs ih =>
    intro ys s hm
    cases ys with
    | nil => exact absurd hm (by simp)
    | cons y ys =>
      simp only [List.map_cons, List.cons.injEq] at hm
      obtain ⟨h1, h2⟩ := hm
      simp only [runPoints]
      rw [step_colIrrel s x y h1]
      cases hstep : step s y with
      | error e => rfl
      | ok s1 => exact ih ys s1 h2

/-- `points_to_frames` never reads the incoming column indices: they are
overwritten when a point is pushed, so two inputs that agree after erasing
the column index are converted identically. -/
theorem points_to_frames_colIrrel (xs ys : List Pt)
    (hxy : xs.map eraseColIdx = ys.map eraseColIdx) :
    points_to_frames xs = points_to_frames ys := by
  unfold points_to_frames
  rw [runPoints_colIrrel xs ys initState hxy]

theorem eraseStored (B k : Nat) (f g h : Nat → Nat) (l : List Nat) :
    (l.map (famStored B k f g h)).map eraseColIdx =
      (l.map (famPt B f g h)).map eraseColIdx := by
  rw [List.map_map, List.map_map]
  exact List.map_congr_left fun i _ => rfl

theorem famShift (B k : Nat) (hB : B = 16 ∨ B = 32) (f g h : Nat → Nat) (len : Nat) :
    (List.range' ((k - 1) * B) len).map (famPt B f g h) =
      famInput B len (fun i => f ((k - 1) * B + i)) (fun i => g ((k - 1) * B + i))
        (fun i => h ((k - 1) * B + i)) := by
  unfold famInput
  rw [List.range'_eq_map_range, List.map_map]
  refine List.map_congr_left ?_
  intro i hi
  show famPt B f g h ((k - 1) * B + i) =
    famPt B (fun i => f ((k - 1) * B + i)) (fun i => g ((k - 1) * B + i))
      (fun i => h ((k - 1) * B + i)) i
  unfold famPt
  rw [show ((k - 1) * B + i) % B = i % B from by rcases hB with rfl | rfl <;> omega]

/-- C4: cross-call buffering.  On a wraparound input (one full revolution of
`k` well-formed `B`-beam columns followed by `m` points of the next), cutting
the sequence at any position `c` into two successive conversion calls — the
first call's leftover carried into the second — yields exactly the frame that
the single full call yields: the revolution's frame `famFrame` is emitted
(by the second call when the cut precedes the azimuth drop, by the first call
otherwise), and no other frame is emitted by either call. -/
theorem C4_split_call_equivalence (B k m : Nat) (f g h : Nat → Nat)
    (hB : B = 16 ∨ B = 32) (hk : 2 ≤ k) (hm : 1 ≤ m)
    (hrev : ∀ i, i < k * B - 1 → f i < f (i + 1))
    (hdrop : f (k * B) < f (k * B - 1))
    (hnext : ∀ j, j < m - 1 → f (k * B + j) < f (k * B + j + 1)) :
    (∀ c, c ≤ k * B + m → twoCallFrames (famInput B (k * B + m) f g h) c =
      .ok (if c ≤ k * B then (none, some (famFrame B k f g h))
        else (some (famFrame B k f g h), none))) ∧
    framePart (points_to_frames (famInput B (k * B + m) f g h)) =
      .ok (some (famFrame B k f g h)) := by
  have hk1 : 1 ≤ k := by omega
  have hrevFull : ∀ i, i + 1 < k * B → i + 1 < k * B + m → f i < f (i + 1) :=
    fun i h1 _ => hrev i (by omega)
  have hdropFull : k * B < k * B + m → f (k * B) < f (k * B - 1) := fun _ => hdrop
  have hnextFull : ∀ j, k * B + j + 1 < k * B + m → f (k * B + j) < f (k * B + j + 1) :=
    fun j hj => hnext j (by omega)
  have hfnFull : (famState B k f g h (k * B + m)).frames = some (famFrame B k f g h) := by
    rw [famState_post B k f g h (show k * B < k * B + m from by omega)]
    show (if 2 ≤ k then some (famFrame B k f g h) else none) = some (famFrame B k f g h)
    rw [if_pos hk]
  constructor
  · intro c hc
    by_cases hck : c ≤ k * B
    · rw [if_pos hck]
      have hfc : (famState B k f g h c).frames = none := by
        rcases Nat.eq_zero_or_pos c with rfl | hc1
        · rw [famState_zero]
          rfl
        · rw [famState_mid B k f g h hc1 hck]
      have herase1 : (((List.range c).map (famStored B k f g h)) ++
          ((List.range' c (k * B + m - c)).map (famPt B f g h))).map eraseColIdx =
          (famInput B (k * B + m) f g h).map eraseColIdx := by
        rw [famInput_split B (k * B + m) c f g h (by omega), List.map_append,
          List.map_append, eraseStored]
        rfl
      obtain ⟨z2, hcall2⟩ : ∃ z, points_to_frames
          (((famState B k f g h c).remaining_points ++
            (famState B k f g h c).remaining_channel) ++
            (famInput B (k * B + m) f g h).drop c) =
          .ok (some (famFrame B k f g h), z) := by
        rw [famLeftover_mid B k hB f g h hck,
          famInput_drop B (k * B + m) c f g h (by omega),
          points_to_frames_colIrrel _ _ herase1,
          famPtf B k hB hk1 f g h (k * B + m) hrevFull hdropFull hnextFull, hfnFull]
        exact ⟨_, rfl⟩
      unfold twoCallFrames convert_single_return
      rw [List.nil_append, famInput_take B (k * B + m) c f g h (by omega),
        famPtf B k hB hk1 f g h c (fun i h1 _ => hrev i (by omega))
          (fun hlt => absurd hlt (by omega)) (fun j hj => absurd hj (by omega))]
      simp only [ebind_ok]
      rw [hcall2]
      simp only [ebind_ok]
      rw [hfc]
    · rw [if_neg hck]
      have hcB : k * B < c := by omega
      have hfc : (famState B k f g h c).frames = some (famFrame B k f g h) := by
        rw [famState_post B k f g h hcB]
        show (if 2 ≤ k then some (famFrame B k f g h) else none) = some (famFrame B k f g h)
        rw [if_pos hk]
      have herase2 : (((List.range' ((k - 1) * B) (c - (k - 1) * B)).map
            (famStored B k f g h)) ++
          ((List.range' c (k * B + m - c)).map (famPt B f g h))).map eraseColIdx =
          ((List.range' ((k - 1) * B) (B + m)).map (famPt B f g h)).map eraseColIdx := by
        rw [List.map_append, eraseStored, ← List.map_append, ← List.map_append]
        have hr := List.range'_append ((k - 1) * B) (c - (k - 1) * B) (k * B + m - c) 1
        rw [one_mul] at hr
        rw [show (k - 1) * B + (c - (k - 1) * B) = c from by
          rcases hB with rfl | rfl <;> omega] at hr
        rw [show k * B + m - c + (c - (k - 1) * B) = B + m from by
          rcases hB with rfl | rfl <;> omega] at hr
        rw [hr]
      have hrevS : ∀ i, i + 1 < 1 * B → i + 1 < B + m →
          f ((k - 1) * B + i) < f ((k - 1) * B + i + 1) := by
        intro i h1 _
        exact hrev ((k - 1) * B + i) (by rcases hB with rfl | rfl <;> omega)
      have hdropS : 1 * B < B + m →
          f ((k - 1) * B + 1 * B) < f ((k - 1) * B + (1 * B - 1)) := by
        intro _
        rw [show (k - 1) * B + 1 * B = k * B from by rcases hB with rfl | rfl <;> omega,
          show (k - 1) * B + (1 * B - 1) = k * B - 1 from by
            rcases hB with rfl | rfl <;> omega]
        exact hdrop
      have hnextS : ∀ j, 1 * B + j + 1 < B + m →
          f ((k - 1) * B + (1 * B + j)) < f ((k - 1) * B + (1 * B + j) + 1) := by
        intro j hj
        rw [show (k - 1) * B + (1 * B + j) = k * B + j from by
          rcases hB with rfl | rfl <;> omega]
        exact hnext j (by omega)
      have hfn2 : (famState B 1 (fun i => f ((k - 1) * B + i)) (fun i => g ((k - 1) * B + i))
          (fun i => h ((k - 1) * B + i)) (B + m)).frames = none := by
        rw [famState_post B 1 (fun i => f ((k - 1) * B + i)) (fun i => g ((k - 1) * B + i))
          (fun i => h ((k - 1) * B + i)) (show 1 * B < B + m from by omega)]
        show (if 2 ≤ 1 then some (famFrame B 1 (fun i => f ((k - 1) * B + i))
          (fun i => g ((k - 1) * B + i)) (fun i => h ((k - 1) * B + i))) else none) = none
        rw [if_neg (by omega)]
      obtain ⟨z2, hcall2⟩ : ∃ z, points_to_frames
          (((famState B k f g h c).remaining_points ++
            (famState B k f g h c).remaining_channel) ++
            (famInput B (k * B + m) f g h).drop c) = .ok (none, z) := by
        rw [famLeftover_post B k hB hk1 f g h hcB,
          famInput_drop B (k * B + m) c f g h (by omega),
          points_to_frames_colIrrel _ _ herase2, famShift B k hB f g h (B + m),
          famPtf B 1 hB (by omega) (fun i => f ((k - 1) * B + i))
            (fun i => g ((k - 1) * B + i)) (fun i => h ((k - 1) * B + i)) (B + m)
            hrevS hdropS hnextS, hfn2]
        exact ⟨_, rfl⟩
      unfold twoCallFrames convert_single_return
      rw [List.nil_append, famInput_take B (k * B + m) c f g h (by omega),
        famPtf B k hB hk1 f g h c (fun i h1 _ => hrev i (by omega)) (fun _ => hdrop)
          (fun j hj => hnext j (by omega))]
      simp only [ebind_ok]
      rw [hcall2]
      simp only [ebind_ok]
      rw [hfc]
  · rw [show framePart (points_to_frames (famInput B (k * B + m) f g h)) =
      Except.ok (famState B k f g h (k * B + m)).frames from by
        rw [famPtf B k hB hk1 f g h (k * B + m) hrevFull hdropFull hnextFull]
        rfl]
    rw [hfnFull]

theorem C4_split_call_equivalence_witness :
    twoCallFrames (famInput 16 33 azWrapOnce (fun i => i % 16) (fun i => i)) 10 =
      .ok (none, some (famFrame 16 2 azWrapOnce (fun i => i % 16) (fun i => i))) ∧
    twoCallFrames (famInput 16 33 azWrapOnce (fun i => i % 16) (fun i => i)) 33 =
      .ok (some (famFrame 16 2 azWrapOnce (fun i => i % 16) (fun i => i)), none) ∧
    framePart (points_to_frames (famInput 16 33 azWrapOnce (fun i => i % 16) (fun i => i))) =
      .ok (some (famFrame 16 2 azWrapOnce (fun i => i % 16) (fun i => i))) :=
  have hmain := C4_split_call_equivalence 16 2 1 azWrapOnce (fun i => i % 16) (fun i => i)
    (Or.inl rfl) (by omega) (by omega) (by decide) (by decide) (by decide)
  ⟨by
    have h1 := hmain.1 10 (by omega)
    rw [if_pos (by omega)] at h1
    exact h1,
  by
    have h2 := hmain.1 33 (by omega)
    rw [if_neg (by omega)] at h2
    exact h2,
  hmain.2⟩
